import Mathlib

/-
Verification of the bounded-concurrency worker pool (package `cc`, file `cc.go`).

The Go source is:

  type Pool struct {
      Errors chan error
      semaphore chan bool
      wg        *sync.WaitGroup
  }

  func New(concurrency int) *Pool {
      wg := sync.WaitGroup{}
      p := Pool{
          Errors: make(chan error),
          semaphore: make(chan bool, concurrency),
          wg:        &wg,
      }
      return &p
  }

  func (p *Pool) Wait() {
      go func() {
          p.wg.Wait()
          close(p.Errors)
          close(p.semaphore)
      }()
  }

  func (p *Pool) Run(fn func()) {
      p.wg.Add(1)
      go func() {
          p.semaphore <- true
          defer func() {
              <-p.semaphore
              p.wg.Done()
          }()
          fn()
      }()
  }

We give a small-step operational model of a program using one pool:

  * `Errors` is an unbuffered channel of results (`make(chan error)` has
    buffer capacity 0): a send can only complete by rendezvous with a
    receiver, and a send on a closed channel panics (Go channel semantics).
  * `semaphore` is a channel of buffer capacity `concurrency`: a send
    completes when the buffer is not full (or by rendezvous when the
    capacity is 0), a receive takes a buffered value, or returns
    immediately when the channel is closed and empty; `close` of a closed
    channel panics; `make` with a negative capacity panics.
  * `wg` is the WaitGroup counter: `Add(1)` increments, `Done` decrements
    (panicking if the counter is already zero), `Wait` blocks until zero.

Each goroutine is modelled by a program counter:

  * a worker spawned by `Run` with a body `fn` that pushes `k` results onto
    `Errors` moves through acquire -> body -> release -> wdone -> finished,
    matching `semaphore <- true`, `fn()`, `<-semaphore`, `wg.Done()`
    (the deferred function runs `<-semaphore` before `wg.Done()`);
  * the background goroutine spawned by `Wait` moves through
    waitZero -> closeErr -> closeSem -> wfin, matching `wg.Wait()`,
    `close(Errors)`, `close(semaphore)`;
  * the client's main goroutine executes a script of `Run` / `Wait` /
    drain (`for err := range p.Errors`) calls in program order, and while
    draining it receives from `Errors` until the channel is closed.

A Go panic in any goroutine crashes the whole program; the model records it
in the flag `panicked`, after which no further step is possible.  The
fields `nCloseErr` and `nCloseSem` are instrumentation counters (they
appear in no guard): they count how many `close` operations actually took
effect on `Errors` and on `semaphore`.

Interleaving is fully nondeterministic: a `step` is labelled by an
`Action` naming which goroutine moves, and reachability (`Reach`)
quantifies over all schedules.
-/

set_option maxHeartbeats 1600000

namespace CC

/-- Program counter of one worker goroutine spawned by `Pool.Run`.  The
payload `k` is the number of result values the unit body still has to push
onto `Errors`. -/
inductive WStage
  | acquire (k : Nat)
  | body (k : Nat)
  | release
  | wdone
  | finished
  deriving DecidableEq, Repr

/-- Program counter of one background goroutine spawned by `Pool.Wait`. -/
inductive WaiterStage
  | waitZero
  | closeErr
  | closeSem
  | wfin
  deriving DecidableEq, Repr

/-- State of the client's drain loop `for err := range p.Errors`. -/
inductive DrainStage
  | drain
  | done
  deriving DecidableEq, Repr

/-- One call the client's main goroutine makes on the pool: `Run` with a
unit that pushes `k` results, `Wait`, or entering the drain loop. -/
inductive MainOp
  | run (k : Nat)
  | wait
  | drain
  deriving DecidableEq, Repr

/-- Global state of a program using one `Pool`. -/
structure PoolState where
  /-- buffer capacity of `semaphore` (the `concurrency` given to `New`) -/
  semCap : Nat
  /-- number of values currently buffered in `semaphore` -/
  semLen : Nat
  /-- whether `semaphore` has been closed -/
  semClosed : Bool
  /-- buffer capacity of `Errors` (`make(chan error)` gives 0) -/
  errCap : Nat
  /-- number of values currently buffered in `Errors` -/
  errLen : Nat
  /-- whether `Errors` has been closed -/
  errClosed : Bool
  /-- the WaitGroup counter -/
  wg : Nat
  /-- worker goroutines spawned by `Run`, in spawn order -/
  workers : List WStage
  /-- background goroutines spawned by `Wait`, in spawn order -/
  waiters : List WaiterStage
  /-- remaining script of the client's main goroutine -/
  mainOps : List MainOp
  /-- `none` before the client enters its drain loop -/
  drainSt : Option DrainStage
  /-- number of result values the drain loop has received -/
  received : Nat
  /-- instrumentation: number of effective `close(Errors)` operations -/
  nCloseErr : Nat
  /-- instrumentation: number of effective `close(semaphore)` operations -/
  nCloseSem : Nat
  /-- set when any goroutine panics (the whole program crashes) -/
  panicked : Bool
  deriving DecidableEq, Repr

/-- Scheduler labels: which goroutine takes the next step. -/
inductive Action
  | mainStep
  | workerAcquire (i : Nat)
  | workerAcquireRdv (i j : Nat)
  | workerPush (i : Nat)
  | workerBodyDone (i : Nat)
  | workerRelease (i : Nat)
  | workerExit (i : Nat)
  | waiterWake (w : Nat)
  | waiterCloseErr (w : Nat)
  | waiterCloseSem (w : Nat)
  | drainRecv
  | drainClose
  deriving DecidableEq, Repr

/-- One small step of the designated goroutine, ignoring the crash flag
(see `step`).  `none` means the chosen goroutine is blocked or does not
exist. -/
def stepGo (a : Action) (s : PoolState) : Option PoolState :=
  match a with
  | .mainStep =>
      -- the main goroutine is busy inside its drain loop once it enters it
      if s.drainSt = some DrainStage.drain then none else
      match s.mainOps with
      | [] => none
      | MainOp.run k :: rest =>
          -- Run: wg.Add(1) synchronously, then spawn the worker goroutine
          some { s with workers := s.workers ++ [WStage.acquire k],
                        wg := s.wg + 1, mainOps := rest }
      | MainOp.wait :: rest =>
          -- Wait: spawn the background goroutine and return at once
          some { s with waiters := s.waiters ++ [WaiterStage.waitZero],
                        mainOps := rest }
      | MainOp.drain :: rest =>
          some { s with drainSt := some DrainStage.drain, mainOps := rest }
  | .workerAcquire i =>
      -- worker i executes `p.semaphore <- true` against the buffer
      match s.workers[i]? with
      | some (WStage.acquire k) =>
          if s.semClosed then some { s with panicked := true }
          else if s.semLen < s.semCap then
            some { s with semLen := s.semLen + 1,
                          workers := s.workers.set i (WStage.body k) }
          else none
      | _ => none
  | .workerAcquireRdv i j =>
      -- on an unbuffered semaphore, a send completes only by rendezvous
      -- with a goroutine blocked in `<-p.semaphore` (worker j's deferred
      -- release)
      if s.semCap = 0 ∧ s.semClosed = false then
        match s.workers[i]?, s.workers[j]? with
        | some (WStage.acquire k), some WStage.release =>
            some { s with workers :=
                    (s.workers.set i (WStage.body k)).set j WStage.wdone }
        | _, _ => none
      else none
  | .workerPush i =>
      -- worker i executes `p.Errors <- v` inside its body
      match s.workers[i]? with
      | some (WStage.body (k + 1)) =>
          if s.errClosed then some { s with panicked := true }
          else if s.errLen < s.errCap then
            some { s with errLen := s.errLen + 1,
                          workers := s.workers.set i (WStage.body k) }
          else if s.drainSt = some DrainStage.drain then
            some { s with received := s.received + 1,
                          workers := s.workers.set i (WStage.body k) }
          else none
      | _ => none
  | .workerBodyDone i =>
      -- worker i's `fn()` returns; the deferred function starts
      match s.workers[i]? with
      | some (WStage.body 0) => some { s with workers := s.workers.set i WStage.release }
      | _ => none
  | .workerRelease i =>
      -- worker i executes `<-p.semaphore` in its deferred function
      match s.workers[i]? with
      | some WStage.release =>
          if 0 < s.semLen then
            some { s with semLen := s.semLen - 1,
                          workers := s.workers.set i WStage.wdone }
          else if s.semClosed then
            some { s with workers := s.workers.set i WStage.wdone }
          else none
      | _ => none
  | .workerExit i =>
      -- worker i executes `p.wg.Done()` and its goroutine exits
      match s.workers[i]? with
      | some WStage.wdone =>
          if s.wg = 0 then some { s with panicked := true }
          else some { s with wg := s.wg - 1,
                             workers := s.workers.set i WStage.finished }
      | _ => none
  | .waiterWake w =>
      -- waiter w's `p.wg.Wait()` returns, which requires the counter at 0
      match s.waiters[w]? with
      | some WaiterStage.waitZero =>
          if s.wg = 0 then
            some { s with waiters := s.waiters.set w WaiterStage.closeErr }
          else none
      | _ => none
  | .waiterCloseErr w =>
      -- waiter w executes `close(p.Errors)`
      match s.waiters[w]? with
      | some WaiterStage.closeErr =>
          if s.errClosed then some { s with panicked := true }
          else
            some { s with errClosed := true, nCloseErr := s.nCloseErr + 1,
                          waiters := s.waiters.set w WaiterStage.closeSem }
      | _ => none
  | .waiterCloseSem w =>
      -- waiter w executes `close(p.semaphore)`
      match s.waiters[w]? with
      | some WaiterStage.closeSem =>
          if s.semClosed then some { s with panicked := true }
          else
            some { s with semClosed := true, nCloseSem := s.nCloseSem + 1,
                          waiters := s.waiters.set w WaiterStage.wfin }
      | _ => none
  | .drainRecv =>
      -- the drain loop receives a buffered value from `Errors`
      if s.drainSt = some DrainStage.drain ∧ 0 < s.errLen then
        some { s with errLen := s.errLen - 1, received := s.received + 1 }
      else none
  | .drainClose =>
      -- the drain loop observes `Errors` closed and empty and terminates
      if s.drainSt = some DrainStage.drain ∧ s.errLen = 0 ∧ s.errClosed = true then
        some { s with drainSt := some DrainStage.done }
      else none

/-- One small step of the whole program: a Go panic in any goroutine
crashes the whole program, so nothing moves once `panicked` is set. -/
def step (a : Action) (s : PoolState) : Option PoolState :=
  if s.panicked then none else stepGo a s

/-- Initial state of a freshly constructed pool (`New` body on a
non-negative capacity) together with a client script `S`. -/
def initP (cap : Nat) (S : List MainOp) : PoolState :=
  { semCap := cap, semLen := 0, semClosed := false,
    errCap := 0, errLen := 0, errClosed := false,
    wg := 0, workers := [], waiters := [], mainOps := S,
    drainSt := none, received := 0, nCloseErr := 0, nCloseSem := 0,
    panicked := false }

/-- `New(concurrency)`.  `Errors: make(chan error)` is unbuffered and
`semaphore: make(chan bool, concurrency)`; per the Go specification,
`make` on a channel panics when the buffer size is negative, which we
model by returning `none`.  `S` is the client program that will be run
against the new pool. -/
def New (concurrency : Int) (S : List MainOp) : Option PoolState :=
  if concurrency < 0 then none else some (initP concurrency.toNat S)

/-- Execute a concrete schedule of actions. -/
def runActs : List Action → PoolState → Option PoolState
  | [], s => some s
  | a :: rest, s =>
      match step a s with
      | none => none
      | some s' => runActs rest s'

/-- Reachability under an arbitrary schedule. -/
def Reach (s s' : PoolState) : Prop :=
  Relation.ReflTransGen (fun a b => ∃ act, step act a = some b) s s'

theorem reach_of_run {acts : List Action} {s s' : PoolState}
    (h : runActs acts s = some s') : Reach s s' := by
  induction acts generalizing s with
  | nil => simp only [runActs, Option.some.injEq] at h; exact h ▸ .refl
  | cons a rest ih =>
      simp only [runActs] at h
      cases hs : step a s with
      | none => rw [hs] at h; cases h
      | some s1 =>
          rw [hs] at h
          exact .head ⟨a, hs⟩ (ih h)

/-- Sum of `f` over a list (used to count goroutines in given stages and
to count pending result pushes). -/
def sumBy (f : α → Nat) : List α → Nat
  | [] => 0
  | x :: xs => f x + sumBy f xs

theorem sumBy_append (f : α → Nat) (l m : List α) :
    sumBy f (l ++ m) = sumBy f l + sumBy f m := by
  induction l with
  | nil => simp [sumBy]
  | cons x xs ih => simp [sumBy, ih]; omega

theorem sumBy_set (f : α → Nat) {l : List α} {i : Nat} {x : α} (y : α)
    (h : l[i]? = some x) :
    sumBy f (l.set i y) + f x = sumBy f l + f y := by
  induction l generalizing i with
  | nil => simp at h
  | cons z zs ih =>
      cases i with
      | zero =>
          simp only [List.getElem?_cons_zero, Option.some.injEq] at h
          subst h
          simp [sumBy, List.set]
          omega
      | succ n =>
          simp only [List.getElem?_cons_succ] at h
          have := ih h
          simp [sumBy, List.set]
          omega

theorem sumBy_eq_zero {f : α → Nat} {l : List α} (h : sumBy f l = 0) :
    ∀ x ∈ l, f x = 0 := by
  induction l with
  | nil => simp
  | cons z zs ih =>
      simp only [sumBy] at h
      intro x hx
      rcases List.mem_cons.mp hx with h1 | h1
      · subst h1; omega
      · exact ih (by omega) x h1

theorem sumBy_zero_of_all {f : α → Nat} {l : List α}
    (h : ∀ x ∈ l, f x = 0) : sumBy f l = 0 := by
  induction l with
  | nil => rfl
  | cons z zs ih =>
      simp only [sumBy]
      rw [h z (List.mem_cons_self z zs), ih fun x hx => h x (List.mem_cons_of_mem z hx)]

theorem exists_pos_of_sumBy_pos {f : α → Nat} {l : List α}
    (h : 0 < sumBy f l) : ∃ x ∈ l, 0 < f x := by
  by_contra hc
  push_neg at hc
  have : sumBy f l = 0 := sumBy_zero_of_all fun x hx => by
    have := hc x hx; omega
  omega

theorem sumBy_map (f : β → Nat) (g : α → β) (l : List α) :
    sumBy f (l.map g) = sumBy (fun x => f (g x)) l := by
  induction l with
  | nil => rfl
  | cons z zs ih => simp [sumBy, ih]

theorem sumBy_getElem_le {f : α → Nat} {l : List α} {i : Nat} {x : α}
    (h : l[i]? = some x) : f x ≤ sumBy f l := by
  induction l generalizing i with
  | nil => simp at h
  | cons z zs ih =>
      cases i with
      | zero =>
          simp only [List.getElem?_cons_zero, Option.some.injEq] at h
          subst h; simp [sumBy]
      | succ n =>
          simp only [List.getElem?_cons_succ] at h
          have := ih h
          simp [sumBy]; omega

/-- Weight 1 on workers currently holding a semaphore slot (between the
completed `semaphore <- true` and the completed `<-semaphore`). -/
def holdW : WStage → Nat
  | .acquire _ => 0
  | .body _ => 1
  | .release => 1
  | .wdone => 0
  | .finished => 0

/-- Weight 1 on workers currently executing the unit body `fn()`. -/
def bodyW : WStage → Nat
  | .body _ => 1
  | _ => 0

/-- Weight 1 on workers still waiting to acquire a semaphore slot. -/
def acqW : WStage → Nat
  | .acquire _ => 1
  | _ => 0

/-- Weight 1 on workers whose goroutine has not yet run `wg.Done()`. -/
def unfinW : WStage → Nat
  | .finished => 0
  | _ => 1

/-- Number of result pushes a worker has still to perform. -/
def pushW : WStage → Nat
  | .acquire k => k
  | .body k => k
  | _ => 0

/-- Weight 1 on waiters that have already executed `close(Errors)`. -/
def pastErrW : WaiterStage → Nat
  | .closeSem => 1
  | .wfin => 1
  | _ => 0

/-- Weight 1 on waiters that have already executed `close(semaphore)`. -/
def pastSemW : WaiterStage → Nat
  | .wfin => 1
  | _ => 0

/-- Weight 1 on the `Wait` calls of a script. -/
def opWait : MainOp → Nat
  | .wait => 1
  | _ => 0

/-- Weight 1 on the `Run` calls of a script. -/
def opRun : MainOp → Nat
  | .run _ => 1
  | _ => 0

/-- Total number of result pushes the `Run` calls of a script will make. -/
def opPush : MainOp → Nat
  | .run k => k
  | _ => 0

/-- Exhaustive enumeration of the outcomes of `step`: one constructor per
way the program can move.  `step_cases` below shows every successful step
is of one of these shapes; the invariant proofs are case analyses on it. -/
inductive StepCase (s : PoolState) : PoolState → Prop
  | runPop (k : Nat) (rest : List MainOp) :
      s.panicked = false → s.drainSt ≠ some DrainStage.drain →
      s.mainOps = MainOp.run k :: rest →
      StepCase s { s with workers := s.workers ++ [WStage.acquire k],
                          wg := s.wg + 1, mainOps := rest }
  | waitPop (rest : List MainOp) :
      s.panicked = false → s.drainSt ≠ some DrainStage.drain →
      s.mainOps = MainOp.wait :: rest →
      StepCase s { s with waiters := s.waiters ++ [WaiterStage.waitZero],
                          mainOps := rest }
  | drainPop (rest : List MainOp) :
      s.panicked = false → s.drainSt ≠ some DrainStage.drain →
      s.mainOps = MainOp.drain :: rest →
      StepCase s { s with drainSt := some DrainStage.drain, mainOps := rest }
  | acqPanic (i k : Nat) :
      s.panicked = false → s.workers[i]? = some (WStage.acquire k) →
      s.semClosed = true →
      StepCase s { s with panicked := true }
  | acqBuf (i k : Nat) :
      s.panicked = false → s.workers[i]? = some (WStage.acquire k) →
      s.semClosed = false → s.semLen < s.semCap →
      StepCase s { s with semLen := s.semLen + 1,
                          workers := s.workers.set i (WStage.body k) }
  | acqRdv (i j k : Nat) :
      s.panicked = false → s.semCap = 0 → s.semClosed = false →
      s.workers[i]? = some (WStage.acquire k) →
      s.workers[j]? = some WStage.release →
      StepCase s { s with workers :=
                    (s.workers.set i (WStage.body k)).set j WStage.wdone }
  | pushPanic (i k : Nat) :
      s.panicked = false → s.workers[i]? = some (WStage.body (k + 1)) →
      s.errClosed = true →
      StepCase s { s with panicked := true }
  | pushBuf (i k : Nat) :
      s.panicked = false → s.workers[i]? = some (WStage.body (k + 1)) →
      s.errClosed = false → s.errLen < s.errCap →
      StepCase s { s with errLen := s.errLen + 1,
                          workers := s.workers.set i (WStage.body k) }
  | pushRdv (i k : Nat) :
      s.panicked = false → s.workers[i]? = some (WStage.body (k + 1)) →
      s.errClosed = false → ¬s.errLen < s.errCap →
      s.drainSt = some DrainStage.drain →
      StepCase s { s with received := s.received + 1,
                          workers := s.workers.set i (WStage.body k) }
  | bodyDone (i : Nat) :
      s.panicked = false → s.workers[i]? = some (WStage.body 0) →
      StepCase s { s with workers := s.workers.set i WStage.release }
  | relBuf (i : Nat) :
      s.panicked = false → s.workers[i]? = some WStage.release →
      0 < s.semLen →
      StepCase s { s with semLen := s.semLen - 1,
                          workers := s.workers.set i WStage.wdone }
  | relClosed (i : Nat) :
      s.panicked = false → s.workers[i]? = some WStage.release →
      ¬0 < s.semLen → s.semClosed = true →
      StepCase s { s with workers := s.workers.set i WStage.wdone }
  | exitPanic (i : Nat) :
      s.panicked = false → s.workers[i]? = some WStage.wdone →
      s.wg = 0 →
      StepCase s { s with panicked := true }
  | exitOk (i : Nat) :
      s.panicked = false → s.workers[i]? = some WStage.wdone →
      s.wg ≠ 0 →
      StepCase s { s with wg := s.wg - 1,
                          workers := s.workers.set i WStage.finished }
  | wake (w : Nat) :
      s.panicked = false → s.waiters[w]? = some WaiterStage.waitZero →
      s.wg = 0 →
      StepCase s { s with waiters := s.waiters.set w WaiterStage.closeErr }
  | clErrPanic (w : Nat) :
      s.panicked = false → s.waiters[w]? = some WaiterStage.closeErr →
      s.errClosed = true →
      StepCase s { s with panicked := true }
  | clErr (w : Nat) :
      s.panicked = false → s.waiters[w]? = some WaiterStage.closeErr →
      s.errClosed = false →
      StepCase s { s with errClosed := true, nCloseErr := s.nCloseErr + 1,
                          waiters := s.waiters.set w WaiterStage.closeSem }
  | clSemPanic (w : Nat) :
      s.panicked = false → s.waiters[w]? = some WaiterStage.closeSem →
      s.semClosed = true →
      StepCase s { s with panicked := true }
  | clSem (w : Nat) :
      s.panicked = false → s.waiters[w]? = some WaiterStage.closeSem →
      s.semClosed = false →
      StepCase s { s with semClosed := true, nCloseSem := s.nCloseSem + 1,
                          waiters := s.waiters.set w WaiterStage.wfin }
  | drRecv :
      s.panicked = false → s.drainSt = some DrainStage.drain →
      0 < s.errLen →
      StepCase s { s with errLen := s.errLen - 1, received := s.received + 1 }
  | drClose :
      s.panicked = false → s.drainSt = some DrainStage.drain →
      s.errLen = 0 → s.errClosed = true →
      StepCase s { s with drainSt := some DrainStage.done }

theorem step_cases {a : Action} {s s' : PoolState}
    (h : step a s = some s') : StepCase s s' := by
  have hp : s.panicked = false := by
    by_contra hc
    rw [step, if_pos (by revert hc; cases s.panicked <;> simp)] at h
    cases h
  rw [step, if_neg (by simp [hp])] at h
  cases a with
  | mainStep =>
      simp only [stepGo] at h
      split at h
      · cases h
      rename_i hdr
      split at h
      · cases h
      · rename_i k rest hm
        injection h with h
        subst h
        exact .runPop k rest hp hdr hm
      · rename_i rest hm
        injection h with h
        subst h
        exact .waitPop rest hp hdr hm
      · rename_i rest hm
        injection h with h
        subst h
        exact .drainPop rest hp hdr hm
  | workerAcquire i =>
      simp only [stepGo] at h
      split at h
      · rename_i st k hw
        split at h
        · rename_i hcl
          injection h with h
          subst h
          exact .acqPanic i k hp hw hcl
        rename_i hcl
        split at h
        · rename_i hlt
          injection h with h
          subst h
          exact .acqBuf i k hp hw (by revert hcl; cases s.semClosed <;> simp) hlt
        · cases h
      · cases h
  | workerAcquireRdv i j =>
      simp only [stepGo] at h
      split at h
      · rename_i hg
        split at h
        · rename_i k hwi hwj
          injection h with h
          subst h
          exact .acqRdv i j k hp hg.1 hg.2 hwi hwj
        · cases h
      · cases h
  | workerPush i =>
      simp only [stepGo] at h
      split at h
      · rename_i st k hw
        split at h
        · rename_i hcl
          injection h with h
          subst h
          exact .pushPanic i k hp hw hcl
        rename_i hcl
        split at h
        · rename_i hlt
          injection h with h
          subst h
          exact .pushBuf i k hp hw (by revert hcl; cases s.errClosed <;> simp) hlt
        rename_i hlt
        split at h
        · rename_i hdr
          injection h with h
          subst h
          exact .pushRdv i k hp hw (by revert hcl; cases s.errClosed <;> simp) hlt hdr
        · cases h
      · cases h
  | workerBodyDone i =>
      simp only [stepGo] at h
      split at h
      · rename_i hw
        injection h with h
        subst h
        exact .bodyDone i hp hw
      · cases h
  | workerRelease i =>
      simp only [stepGo] at h
      split at h
      · rename_i hw
        split at h
        · rename_i hlt
          injection h with h
          subst h
          exact .relBuf i hp hw hlt
        rename_i hlt
        split at h
        · rename_i hcl
          injection h with h
          subst h
          exact .relClosed i hp hw hlt hcl
        · cases h
      · cases h
  | workerExit i =>
      simp only [stepGo] at h
      split at h
      · rename_i hw
        split at h
        · rename_i hz
          injection h with h
          subst h
          exact .exitPanic i hp hw hz
        · rename_i hz
          injection h with h
          subst h
          exact .exitOk i hp hw hz
      · cases h
  | waiterWake w =>
      simp only [stepGo] at h
      split at h
      · rename_i hw
        split at h
        · rename_i hz
          injection h with h
          subst h
          exact .wake w hp hw hz
        · cases h
      · cases h
  | waiterCloseErr w =>
      simp only [stepGo] at h
      split at h
      · rename_i hw
        split at h
        · rename_i hcl
          injection h with h
          subst h
          exact .clErrPanic w hp hw hcl
        · rename_i hcl
          injection h with h
          subst h
          exact .clErr w hp hw (by revert hcl; cases s.errClosed <;> simp)
      · cases h
  | waiterCloseSem w =>
      simp only [stepGo] at h
      split at h
      · rename_i hw
        split at h
        · rename_i hcl
          injection h with h
          subst h
          exact .clSemPanic w hp hw hcl
        · rename_i hcl
          injection h with h
          subst h
          exact .clSem w hp hw (by revert hcl; cases s.semClosed <;> simp)
      · cases h
  | drainRecv =>
      simp only [stepGo] at h
      split at h
      · rename_i hg
        injection h with h
        subst h
        exact .drRecv hp hg.1 hg.2
      · cases h
  | drainClose =>
      simp only [stepGo] at h
      split at h
      · rename_i hg
        injection h with h
        subst h
        exact .drClose hp hg.1 hg.2.1 hg.2.2
      · cases h

/-- The master inductive invariant of the pool, for an arbitrary capacity
and client script `S`.  `hold_eq` says the workers between a completed
permit-acquire and permit-release are exactly the values buffered in the
semaphore; `wg_eq` says the WaitGroup counter counts the workers that have
not yet run `wg.Done()`; `conserve` is conservation of result values;
the remaining fields tie the channel flags to the waiter goroutines. -/
structure Inv (cap : Nat) (S : List MainOp) (s : PoolState) : Prop where
  cap_eq : s.semCap = cap
  errCap0 : s.errCap = 0
  errLen0 : s.errLen = 0
  hold_eq : sumBy holdW s.workers = s.semLen
  sem_le : s.semLen ≤ s.semCap
  wg_eq : sumBy unfinW s.workers = s.wg
  errc : s.errClosed = true ↔ 0 < s.nCloseErr
  semc : s.semClosed = true ↔ 0 < s.nCloseSem
  nerr_eq : s.nCloseErr = sumBy pastErrW s.waiters
  nsem_eq : s.nCloseSem = sumBy pastSemW s.waiters
  nerr_le : s.nCloseErr ≤ 1
  nsem_le : s.nCloseSem ≤ 1
  wait_count : s.waiters.length + sumBy opWait s.mainOps = sumBy opWait S
  run_count : s.workers.length + sumBy opRun s.mainOps = sumBy opRun S
  conserve : s.received + s.errLen + sumBy pushW s.workers
      + sumBy opPush s.mainOps = sumBy opPush S
  drain_closed : s.drainSt = some DrainStage.done → s.errClosed = true

theorem inv_init (cap : Nat) (S : List MainOp) : Inv cap S (initP cap S) := by
  constructor <;> simp [initP, sumBy]

theorem inv_step {cap : Nat} {S : List MainOp} {a : Action} {s s' : PoolState}
    (hI : Inv cap S s) (h : step a s = some s') : Inv cap S s' := by
  obtain ⟨hcap, hec, hel, hhold, hsle, hwg, herrc, hsemc, hnerr, hnsem, hne1,
    hns1, hwc, hrc, hcons, hdc⟩ := hI
  cases step_cases h with
  | runPop k rest hp hdr hm =>
      rw [hm] at hwc hrc hcons
      simp only [sumBy, opWait, opRun, opPush] at hwc hrc hcons
      refine ⟨?_, ?_, ?_, ?_, ?_, ?_, ?_, ?_, ?_, ?_, ?_, ?_, ?_, ?_, ?_, ?_⟩ <;> dsimp only
      · exact hcap
      · exact hec
      · exact hel
      · rw [sumBy_append]; simp only [sumBy, holdW]; omega
      · exact hsle
      · rw [sumBy_append]; simp only [sumBy, unfinW]; omega
      · exact herrc
      · exact hsemc
      · exact hnerr
      · exact hnsem
      · exact hne1
      · exact hns1
      · omega
      · simp only [List.length_append, List.length_cons, List.length_nil]; omega
      · rw [sumBy_append]; simp only [sumBy, pushW]; omega
      · exact hdc
  | waitPop rest hp hdr hm =>
      rw [hm] at hwc hrc hcons
      simp only [sumBy, opWait, opRun, opPush] at hwc hrc hcons
      refine ⟨?_, ?_, ?_, ?_, ?_, ?_, ?_, ?_, ?_, ?_, ?_, ?_, ?_, ?_, ?_, ?_⟩ <;> dsimp only
      · exact hcap
      · exact hec
      · exact hel
      · exact hhold
      · exact hsle
      · exact hwg
      · exact herrc
      · exact hsemc
      · rw [sumBy_append]; simp only [sumBy, pastErrW]; omega
      · rw [sumBy_append]; simp only [sumBy, pastSemW]; omega
      · exact hne1
      · exact hns1
      · simp only [List.length_append, List.length_cons, List.length_nil]; omega
      · omega
      · omega
      · exact hdc
  | drainPop rest hp hdr hm =>
      rw [hm] at hwc hrc hcons
      simp only [sumBy, opWait, opRun, opPush] at hwc hrc hcons
      refine ⟨?_, ?_, ?_, ?_, ?_, ?_, ?_, ?_, ?_, ?_, ?_, ?_, ?_, ?_, ?_, ?_⟩ <;> dsimp only
      · exact hcap
      · exact hec
      · exact hel
      · exact hhold
      · exact hsle
      · exact hwg
      · exact herrc
      · exact hsemc
      · exact hnerr
      · exact hnsem
      · exact hne1
      · exact hns1
      · omega
      · omega
      · omega
      · intro hx; exact absurd hx (by simp)
  | acqPanic i k hp hw hcl =>
      refine ⟨?_, ?_, ?_, ?_, ?_, ?_, ?_, ?_, ?_, ?_, ?_, ?_, ?_, ?_, ?_, ?_⟩ <;> dsimp only
      · exact hcap
      · exact hec
      · exact hel
      · exact hhold
      · exact hsle
      · exact hwg
      · exact herrc
      · exact hsemc
      · exact hnerr
      · exact hnsem
      · exact hne1
      · exact hns1
      · exact hwc
      · exact hrc
      · exact hcons
      · exact hdc
  | pushPanic i k hp hw hcl =>
      refine ⟨?_, ?_, ?_, ?_, ?_, ?_, ?_, ?_, ?_, ?_, ?_, ?_, ?_, ?_, ?_, ?_⟩ <;> dsimp only
      · exact hcap
      · exact hec
      · exact hel
      · exact hhold
      · exact hsle
      · exact hwg
      · exact herrc
      · exact hsemc
      · exact hnerr
      · exact hnsem
      · exact hne1
      · exact hns1
      · exact hwc
      · exact hrc
      · exact hcons
      · exact hdc
  | exitPanic i hp hw hz =>
      refine ⟨?_, ?_, ?_, ?_, ?_, ?_, ?_, ?_, ?_, ?_, ?_, ?_, ?_, ?_, ?_, ?_⟩ <;> dsimp only
      · exact hcap
      · exact hec
      · exact hel
      · exact hhold
      · exact hsle
      · exact hwg
      · exact herrc
      · exact hsemc
      · exact hnerr
      · exact hnsem
      · exact hne1
      · exact hns1
      · exact hwc
      · exact hrc
      · exact hcons
      · exact hdc
  | clErrPanic w hp hw hcl =>
      refine ⟨?_, ?_, ?_, ?_, ?_, ?_, ?_, ?_, ?_, ?_, ?_, ?_, ?_, ?_, ?_, ?_⟩ <;> dsimp only
      · exact hcap
      · exact hec
      · exact hel
      · exact hhold
      · exact hsle
      · exact hwg
      · exact herrc
      · exact hsemc
      · exact hnerr
      · exact hnsem
      · exact hne1
      · exact hns1
      · exact hwc
      · exact hrc
      · exact hcons
      · exact hdc
  | clSemPanic w hp hw hcl =>
      refine ⟨?_, ?_, ?_, ?_, ?_, ?_, ?_, ?_, ?_, ?_, ?_, ?_, ?_, ?_, ?_, ?_⟩ <;> dsimp only
      · exact hcap
      · exact hec
      · exact hel
      · exact hhold
      · exact hsle
      · exact hwg
      · exact herrc
      · exact hsemc
      · exact hnerr
      · exact hnsem
      · exact hne1
      · exact hns1
      · exact hwc
      · exact hrc
      · exact hcons
      · exact hdc
  | acqBuf i k hp hw hcl hlt =>
      have h5 := sumBy_set holdW (WStage.body k) hw
      have h6 := sumBy_set unfinW (WStage.body k) hw
      have h7 := sumBy_set pushW (WStage.body k) hw
      simp only [holdW, unfinW, pushW] at h5 h6 h7
      refine ⟨?_, ?_, ?_, ?_, ?_, ?_, ?_, ?_, ?_, ?_, ?_, ?_, ?_, ?_, ?_, ?_⟩ <;> dsimp only
      · exact hcap
      · exact hec
      · exact hel
      · omega
      · omega
      · omega
      · exact herrc
      · exact hsemc
      · exact hnerr
      · exact hnsem
      · exact hne1
      · exact hns1
      · exact hwc
      · simp only [List.length_set]; exact hrc
      · omega
      · exact hdc
  | acqRdv i j k hp hcap0 hcl hwi hwj =>
      exfalso
      have h1 := @sumBy_getElem_le WStage holdW s.workers j WStage.release hwj
      simp only [holdW] at h1
      omega
  | pushBuf i k hp hw hcl hlt =>
      exfalso; omega
  | pushRdv i k hp hw hcl hlt hdr =>
      have h5 := sumBy_set holdW (WStage.body k) hw
      have h6 := sumBy_set unfinW (WStage.body k) hw
      have h7 := sumBy_set pushW (WStage.body k) hw
      simp only [holdW, unfinW, pushW] at h5 h6 h7
      refine ⟨?_, ?_, ?_, ?_, ?_, ?_, ?_, ?_, ?_, ?_, ?_, ?_, ?_, ?_, ?_, ?_⟩ <;> dsimp only
      · exact hcap
      · exact hec
      · exact hel
      · omega
      · exact hsle
      · omega
      · exact herrc
      · exact hsemc
      · exact hnerr
      · exact hnsem
      · exact hne1
      · exact hns1
      · exact hwc
      · simp only [List.length_set]; exact hrc
      · omega
      · exact hdc
  | bodyDone i hp hw =>
      have h5 := sumBy_set holdW WStage.release hw
      have h6 := sumBy_set unfinW WStage.release hw
      have h7 := sumBy_set pushW WStage.release hw
      simp only [holdW, unfinW, pushW] at h5 h6 h7
      refine ⟨?_, ?_, ?_, ?_, ?_, ?_, ?_, ?_, ?_, ?_, ?_, ?_, ?_, ?_, ?_, ?_⟩ <;> dsimp only
      · exact hcap
      · exact hec
      · exact hel
      · omega
      · exact hsle
      · omega
      · exact herrc
      · exact hsemc
      · exact hnerr
      · exact hnsem
      · exact hne1
      · exact hns1
      · exact hwc
      · simp only [List.length_set]; exact hrc
      · omega
      · exact hdc
  | relBuf i hp hw hlt =>
      have h5 := sumBy_set holdW WStage.wdone hw
      have h6 := sumBy_set unfinW WStage.wdone hw
      have h7 := sumBy_set pushW WStage.wdone hw
      simp only [holdW, unfinW, pushW] at h5 h6 h7
      refine ⟨?_, ?_, ?_, ?_, ?_, ?_, ?_, ?_, ?_, ?_, ?_, ?_, ?_, ?_, ?_, ?_⟩ <;> dsimp only
      · exact hcap
      · exact hec
      · exact hel
      · omega
      · omega
      · omega
      · exact herrc
      · exact hsemc
      · exact hnerr
      · exact hnsem
      · exact hne1
      · exact hns1
      · exact hwc
      · simp only [List.length_set]; exact hrc
      · omega
      · exact hdc
  | relClosed i hp hw hlt hcl =>
      exfalso
      have h1 := @sumBy_getElem_le WStage holdW s.workers i WStage.release hw
      simp only [holdW] at h1
      omega
  | exitOk i hp hw hz =>
      have h5 := sumBy_set holdW WStage.finished hw
      have h6 := sumBy_set unfinW WStage.finished hw
      have h7 := sumBy_set pushW WStage.finished hw
      simp only [holdW, unfinW, pushW] at h5 h6 h7
      refine ⟨?_, ?_, ?_, ?_, ?_, ?_, ?_, ?_, ?_, ?_, ?_, ?_, ?_, ?_, ?_, ?_⟩ <;> dsimp only
      · exact hcap
      · exact hec
      · exact hel
      · omega
      · exact hsle
      · omega
      · exact herrc
      · exact hsemc
      · exact hnerr
      · exact hnsem
      · exact hne1
      · exact hns1
      · exact hwc
      · simp only [List.length_set]; exact hrc
      · omega
      · exact hdc
  | wake w hp hw hz =>
      have h5 := sumBy_set pastErrW WaiterStage.closeErr hw
      have h6 := sumBy_set pastSemW WaiterStage.closeErr hw
      simp only [pastErrW, pastSemW] at h5 h6
      refine ⟨?_, ?_, ?_, ?_, ?_, ?_, ?_, ?_, ?_, ?_, ?_, ?_, ?_, ?_, ?_, ?_⟩ <;> dsimp only
      · exact hcap
      · exact hec
      · exact hel
      · exact hhold
      · exact hsle
      · exact hwg
      · exact herrc
      · exact hsemc
      · omega
      · omega
      · exact hne1
      · exact hns1
      · simp only [List.length_set]; exact hwc
      · exact hrc
      · exact hcons
      · exact hdc
  | clErr w hp hw hcl =>
      have h5 := sumBy_set pastErrW WaiterStage.closeSem hw
      have h6 := sumBy_set pastSemW WaiterStage.closeSem hw
      simp only [pastErrW, pastSemW] at h5 h6
      have h0 : s.nCloseErr = 0 := by
        by_contra hx
        have hy := herrc.mpr (Nat.pos_of_ne_zero hx)
        rw [hcl] at hy
        cases hy
      refine ⟨?_, ?_, ?_, ?_, ?_, ?_, ?_, ?_, ?_, ?_, ?_, ?_, ?_, ?_, ?_, ?_⟩ <;> dsimp only
      · exact hcap
      · exact hec
      · exact hel
      · exact hhold
      · exact hsle
      · exact hwg
      · simp
      · exact hsemc
      · omega
      · omega
      · omega
      · exact hns1
      · simp only [List.length_set]; exact hwc
      · exact hrc
      · exact hcons
      · intro hx; rfl
  | clSem w hp hw hcl =>
      have h5 := sumBy_set pastErrW WaiterStage.wfin hw
      have h6 := sumBy_set pastSemW WaiterStage.wfin hw
      simp only [pastErrW, pastSemW] at h5 h6
      have h0 : s.nCloseSem = 0 := by
        by_contra hx
        have hy := hsemc.mpr (Nat.pos_of_ne_zero hx)
        rw [hcl] at hy
        cases hy
      refine ⟨?_, ?_, ?_, ?_, ?_, ?_, ?_, ?_, ?_, ?_, ?_, ?_, ?_, ?_, ?_, ?_⟩ <;> dsimp only
      · exact hcap
      · exact hec
      · exact hel
      · exact hhold
      · exact hsle
      · exact hwg
      · exact herrc
      · simp
      · omega
      · omega
      · exact hne1
      · omega
      · simp only [List.length_set]; exact hwc
      · exact hrc
      · exact hcons
      · exact hdc
  | drRecv hp hdr hlt =>
      exfalso; omega
  | drClose hp hdr hl0 hcl =>
      refine ⟨?_, ?_, ?_, ?_, ?_, ?_, ?_, ?_, ?_, ?_, ?_, ?_, ?_, ?_, ?_, ?_⟩ <;> dsimp only
      · exact hcap
      · exact hec
      · exact hel
      · exact hhold
      · exact hsle
      · exact hwg
      · exact herrc
      · exact hsemc
      · exact hnerr
      · exact hnsem
      · exact hne1
      · exact hns1
      · exact hwc
      · exact hrc
      · exact hcons
      · intro hx; exact hcl

theorem inv_reach {cap : Nat} {S : List MainOp} {s' : PoolState}
    (h : Reach (initP cap S) s') : Inv cap S s' := by
  induction h with
  | refl => exact inv_init cap S
  | tail _ hstep ih =>
      obtain ⟨a, ha⟩ := hstep
      exact inv_step ih ha

theorem mem_of_get {l : List α} {n : Nat} {x : α} (h : l[n]? = some x) : x ∈ l := by
  induction l generalizing n with
  | nil => simp at h
  | cons z zs ih =>
      cases n with
      | zero =>
          simp only [List.getElem?_cons_zero, Option.some.injEq] at h
          exact h ▸ List.mem_cons_self z zs
      | succ m => exact List.mem_cons_of_mem z (ih (by simpa using h))

theorem ne_nil_of_get {l : List α} {n : Nat} {x : α} (h : l[n]? = some x) : l ≠ [] := by
  intro hc; subst hc; simp at h

theorem sumBy_const_zero (l : List α) : sumBy (fun _ => (0 : Nat)) l = 0 := by
  induction l with
  | nil => rfl
  | cons z zs ih => simp [sumBy, ih]

theorem sumBy_replicate (n : Nat) (f : α → Nat) (x : α) :
    sumBy f (List.replicate n x) = n * f x := by
  induction n with
  | zero => simp [List.replicate, sumBy]
  | succ m ih => rw [List.replicate_succ]; simp [sumBy, ih]; ring

theorem sumBy_id_eq_sum (l : List Nat) : sumBy (fun x => x) l = l.sum := by
  induction l with
  | nil => rfl
  | cons z zs ih => simp [sumBy, ih]

/-- The client script modelling the documented usage of the pool: `M`
calls to `Run` (the `i`-th submitting a unit that pushes `ks[i]` results),
then one call to `Wait`, then the drain loop `for err := range p.Errors`. -/
def mkScript (ks : List Nat) : List MainOp :=
  ks.map MainOp.run ++ [MainOp.wait, MainOp.drain]

theorem opWait_mkScript (t : List Nat) : sumBy opWait (mkScript t) = 1 := by
  rw [mkScript, sumBy_append, sumBy_map]
  simp only [opWait]
  rw [sumBy_const_zero]
  rfl

theorem opRun_mkScript (t : List Nat) : sumBy opRun (mkScript t) = t.length := by
  rw [mkScript, sumBy_append, sumBy_map]
  simp only [opRun]
  have : sumBy (fun _ : Nat => (1 : Nat)) t = t.length := by
    induction t with
    | nil => rfl
    | cons z zs ih => simp [sumBy, ih]; omega
  rw [this]
  simp [sumBy, opRun]

theorem opPush_mkScript (t : List Nat) : sumBy opPush (mkScript t) = t.sum := by
  rw [mkScript, sumBy_append, sumBy_map]
  simp only [opPush]
  rw [sumBy_id_eq_sum]
  simp [sumBy, opPush]

theorem mkScript_eq_run {t : List Nat} {k : Nat} {rest : List MainOp}
    (h : mkScript t = MainOp.run k :: rest) :
    ∃ t', t = k :: t' ∧ rest = mkScript t' := by
  cases t with
  | nil => simp [mkScript] at h
  | cons a t' =>
      simp only [mkScript, List.map_cons, List.cons_append, List.cons.injEq,
        MainOp.run.injEq] at h
      exact ⟨t', by rw [h.1], h.2.symm⟩

theorem mkScript_eq_wait {t : List Nat} {rest : List MainOp}
    (h : mkScript t = MainOp.wait :: rest) : t = [] ∧ rest = [MainOp.drain] := by
  cases t with
  | nil =>
      simp only [mkScript, List.map_nil, List.nil_append, List.cons.injEq] at h
      exact ⟨rfl, h.2.symm⟩
  | cons a t' => simp [mkScript] at h

theorem mkScript_ne_drain {t : List Nat} {rest : List MainOp}
    (h : mkScript t = MainOp.drain :: rest) : False := by
  cases t with
  | nil => simp [mkScript] at h
  | cons a t' => simp [mkScript] at h

/-- Extra inductive invariant for the documented usage script `mkScript ks`:
the remaining script is a tail of the original one; once any waiter
goroutine has passed `wg.Wait()` every worker has already run `wg.Done()`;
and once the client has entered the drain loop its script is exhausted. -/
structure SInv (ks : List Nat) (s : PoolState) : Prop where
  shape : (∃ t : List Nat, t.IsSuffix ks ∧ s.mainOps = mkScript t) ∨
      s.mainOps = [MainOp.drain] ∨ s.mainOps = []
  fin9 : (∃ w ∈ s.waiters, w ≠ WaiterStage.waitZero) → sumBy unfinW s.workers = 0
  drain_main : s.drainSt ≠ none → s.mainOps = []

theorem sinv_init (ks : List Nat) : SInv ks (initP (cap) (mkScript ks)) := by
  refine ⟨Or.inl ⟨ks, List.suffix_refl ks, rfl⟩, ?_, ?_⟩
  · intro hx
    simp [initP] at hx
  · intro hx
    simp [initP] at hx

theorem sinv_step {cap : Nat} {ks : List Nat} {a : Action} {s s' : PoolState}
    (hI : Inv cap (mkScript ks) s) (hS : SInv ks s) (h : step a s = some s') :
    SInv ks s' := by
  obtain ⟨hsh, hf9, hdm⟩ := hS
  have hnodr : s.drainSt = none → True := fun _ => trivial
  cases step_cases h with
  | runPop k rest hp hdr hm =>
      have hdr0 : s.drainSt = none := by
        by_contra hx
        rw [hdm hx] at hm
        cases hm
      rcases hsh with ⟨t, hts, hmt⟩ | hmt | hmt
      · rw [hm] at hmt
        obtain ⟨t', ht1, ht2⟩ := mkScript_eq_run hmt.symm
        refine ⟨Or.inl ⟨t', (List.suffix_cons k t').trans (ht1 ▸ hts), ht2⟩, ?_, ?_⟩
        · intro hx
          exfalso
          -- a waiter exists although the wait call is still in the script
          obtain ⟨w, hwmem, hwne⟩ := hx
          have hw1 := hI.wait_count
          rw [hm, ht2] at hw1
          rw [opWait_mkScript] at hw1
          have : sumBy opWait (MainOp.run k :: mkScript t') = 1 := by
            simp [sumBy, opWait, opWait_mkScript]
          rw [this] at hw1
          have hlen : s.waiters.length = 0 := by omega
          rw [List.length_eq_zero.mp hlen] at hwmem
          simp at hwmem
        · intro hx
          exact absurd hdr0 (by dsimp only at hx; rw [hdr0] at hx; exact absurd rfl hx)
      · rw [hm] at hmt; cases hmt
      · rw [hm] at hmt; cases hmt
  | waitPop rest hp hdr hm =>
      have hdr0 : s.drainSt = none := by
        by_contra hx
        rw [hdm hx] at hm
        cases hm
      rcases hsh with ⟨t, hts, hmt⟩ | hmt | hmt
      · rw [hm] at hmt
        obtain ⟨ht1, ht2⟩ := mkScript_eq_wait hmt.symm
        refine ⟨Or.inr (Or.inl ht2), ?_, ?_⟩
        · intro hx
          obtain ⟨w, hwmem, hwne⟩ := hx
          dsimp only at hwmem
          rcases List.mem_append.mp hwmem with h1 | h1
          · exact hf9 ⟨w, h1, hwne⟩
          · exact absurd (List.mem_singleton.mp h1) hwne
        · intro hx
          exact absurd hdr0 (by dsimp only at hx; rw [hdr0] at hx; exact absurd rfl hx)
      · rw [hm] at hmt; cases hmt
      · rw [hm] at hmt; cases hmt
  | drainPop rest hp hdr hm =>
      have hrest : rest = [] := by
        rcases hsh with ⟨t, hts, hmt⟩ | hmt | hmt
        · rw [hm] at hmt; exact absurd hmt.symm mkScript_ne_drain
        · rw [hm] at hmt; injection hmt
        · rw [hm] at hmt; cases hmt
      exact ⟨Or.inr (Or.inr hrest), hf9, fun _ => hrest⟩
  | acqPanic i k hp hw hcl => exact ⟨hsh, hf9, hdm⟩
  | acqBuf i k hp hw hcl hlt =>
      refine ⟨hsh, ?_, hdm⟩
      intro hx
      exfalso
      have h0 := hf9 hx
      have h1 := @sumBy_getElem_le WStage unfinW s.workers i (WStage.acquire k) hw
      simp only [unfinW] at h1
      omega
  | acqRdv i j k hp hcap0 hcl hwi hwj =>
      exfalso
      have h1 := @sumBy_getElem_le WStage holdW s.workers j WStage.release hwj
      simp only [holdW] at h1
      have := hI.hold_eq
      have := hI.sem_le
      have := hI.cap_eq
      omega
  | pushPanic i k hp hw hcl => exact ⟨hsh, hf9, hdm⟩
  | pushBuf i k hp hw hcl hlt =>
      exfalso
      have := hI.errCap0
      omega
  | pushRdv i k hp hw hcl hlt hdr =>
      refine ⟨hsh, ?_, hdm⟩
      intro hx
      exfalso
      have h0 := hf9 hx
      have h1 := @sumBy_getElem_le WStage unfinW s.workers i (WStage.body (k + 1)) hw
      simp only [unfinW] at h1
      omega
  | bodyDone i hp hw =>
      refine ⟨hsh, ?_, hdm⟩
      intro hx
      exfalso
      have h0 := hf9 hx
      have h1 := @sumBy_getElem_le WStage unfinW s.workers i (WStage.body 0) hw
      simp only [unfinW] at h1
      omega
  | relBuf i hp hw hlt =>
      refine ⟨hsh, ?_, hdm⟩
      intro hx
      exfalso
      have h0 := hf9 hx
      have h1 := @sumBy_getElem_le WStage unfinW s.workers i WStage.release hw
      simp only [unfinW] at h1
      omega
  | relClosed i hp hw hlt hcl =>
      exfalso
      have h1 := @sumBy_getElem_le WStage holdW s.workers i WStage.release hw
      simp only [holdW] at h1
      have := hI.hold_eq
      omega
  | exitPanic i hp hw hz => exact ⟨hsh, hf9, hdm⟩
  | exitOk i hp hw hz =>
      refine ⟨hsh, ?_, hdm⟩
      intro hx
      have h0 := hf9 hx
      have h5 := sumBy_set unfinW WStage.finished hw
      simp only [unfinW] at h5
      dsimp only
      omega
  | wake w hp hw hz =>
      refine ⟨hsh, ?_, hdm⟩
      intro hx
      have := hI.wg_eq
      dsimp only
      omega
  | clErrPanic w hp hw hcl => exact ⟨hsh, hf9, hdm⟩
  | clErr w hp hw hcl =>
      refine ⟨hsh, ?_, hdm⟩
      intro hx
      exact hf9 ⟨WaiterStage.closeErr, mem_of_get hw, by simp⟩
  | clSemPanic w hp hw hcl => exact ⟨hsh, hf9, hdm⟩
  | clSem w hp hw hcl =>
      refine ⟨hsh, ?_, hdm⟩
      intro hx
      exact hf9 ⟨WaiterStage.closeSem, mem_of_get hw, by simp⟩
  | drRecv hp hdr hlt =>
      exfalso
      have := hI.errLen0
      omega
  | drClose hp hdr hl0 hcl =>
      refine ⟨hsh, hf9, fun _ => ?_⟩
      exact hdm (by rw [hdr]; simp)

theorem sinv_reach {cap : Nat} {ks : List Nat} {s' : PoolState}
    (h : Reach (initP cap (mkScript ks)) s') : SInv ks s' := by
  have hb : Inv cap (mkScript ks) s' ∧ SInv ks s' := by
    induction h with
    | refl => exact ⟨inv_init cap (mkScript ks), sinv_init ks⟩
    | tail _ hstep ih =>
        obtain ⟨a, ha⟩ := hstep
        exact ⟨inv_step ih.1 ha, sinv_step ih.1 ih.2 ha⟩
  exact hb.2

/-- In one step, a waiter goroutine past `wg.Wait()` either existed before
the step, or the step itself is the wake-up, which requires the WaitGroup
counter to be zero. -/
theorem waiter_origin {a : Action} {s s' : PoolState} (h : step a s = some s')
    (hx : ∃ w ∈ s'.waiters, w ≠ WaiterStage.waitZero) :
    (∃ w ∈ s.waiters, w ≠ WaiterStage.waitZero) ∨ (s.wg = 0 ∧ s.waiters ≠ []) := by
  cases step_cases h with
  | waitPop rest hp hdr hm =>
      obtain ⟨w, hwmem, hwne⟩ := hx
      dsimp only at hwmem
      rcases List.mem_append.mp hwmem with h1 | h1
      · exact Or.inl ⟨w, h1, hwne⟩
      · exact absurd (List.mem_singleton.mp h1) hwne
  | wake w hp hw hz => exact Or.inr ⟨hz, ne_nil_of_get hw⟩
  | clErr w hp hw hcl => exact Or.inl ⟨WaiterStage.closeErr, mem_of_get hw, by simp⟩
  | clErrPanic w hp hw hcl => exact Or.inl hx
  | clSem w hp hw hcl => exact Or.inl ⟨WaiterStage.closeSem, mem_of_get hw, by simp⟩
  | clSemPanic w hp hw hcl => exact Or.inl hx
  | runPop k rest hp hdr hm => exact Or.inl hx
  | drainPop rest hp hdr hm => exact Or.inl hx
  | acqPanic i k hp hw hcl => exact Or.inl hx
  | acqBuf i k hp hw hcl hlt => exact Or.inl hx
  | acqRdv i j k hp hcap0 hcl hwi hwj => exact Or.inl hx
  | pushPanic i k hp hw hcl => exact Or.inl hx
  | pushBuf i k hp hw hcl hlt => exact Or.inl hx
  | pushRdv i k hp hw hcl hlt hdr => exact Or.inl hx
  | bodyDone i hp hw => exact Or.inl hx
  | relBuf i hp hw hlt => exact Or.inl hx
  | relClosed i hp hw hlt hcl => exact Or.inl hx
  | exitPanic i hp hw hz => exact Or.inl hx
  | exitOk i hp hw hz => exact Or.inl hx
  | drRecv hp hdr hlt => exact Or.inl hx
  | drClose hp hdr hl0 hcl => exact Or.inl hx

/-- Any reachable state with a waiter past `wg.Wait()` has an earlier
reachable state in which the WaitGroup counter was zero while a `Wait`
call had already been issued. -/
theorem zero_was_observed {cap : Nat} {S : List MainOp} {s : PoolState}
    (hr : Reach (initP cap S) s)
    (hx : ∃ w ∈ s.waiters, w ≠ WaiterStage.waitZero) :
    ∃ mid, Reach (initP cap S) mid ∧ mid.wg = 0 ∧ mid.waiters ≠ [] := by
  induction hr with
  | refl => simp [initP] at hx
  | tail hr2 hstep ih =>
      obtain ⟨a, ha⟩ := hstep
      rcases waiter_origin ha hx with h1 | h1
      · exact ih h1
      · exact ⟨_, hr2, h1.1, h1.2⟩

theorem map_run_eq_cons {t : List Nat} {k : Nat} {rest : List MainOp}
    (h : t.map MainOp.run = MainOp.run k :: rest) :
    ∃ t', t = k :: t' ∧ rest = t'.map MainOp.run := by
  cases t with
  | nil => cases h
  | cons a t' =>
      simp only [List.map_cons, List.cons.injEq, MainOp.run.injEq] at h
      exact ⟨t', by rw [h.1], h.2.symm⟩

theorem map_run_ne_wait {t : List Nat} {rest : List MainOp}
    (h : t.map MainOp.run = MainOp.wait :: rest) : False := by
  cases t with
  | nil => cases h
  | cons a t' => simp at h

theorem map_run_ne_drain {t : List Nat} {rest : List MainOp}
    (h : t.map MainOp.run = MainOp.drain :: rest) : False := by
  cases t with
  | nil => cases h
  | cons a t' => simp at h

/-- Inductive invariant of a zero-capacity pool driven by a script of
`Run` calls only: nothing ever panics, nothing is ever received, and every
worker is stuck forever at `p.semaphore <- true` (the admission point). -/
structure ZInv (ks : List Nat) (s : PoolState) : Prop where
  mops : ∃ t : List Nat, t.IsSuffix ks ∧ s.mainOps = t.map MainOp.run
  cap0 : s.semCap = 0
  wnone : s.waiters = []
  dnone : s.drainSt = none
  enocl : s.errClosed = false
  snocl : s.semClosed = false
  ecap : s.errCap = 0
  allacq : ∀ x ∈ s.workers, ∃ k, x = WStage.acquire k
  nopanic : s.panicked = false
  rec0 : s.received = 0

theorem zinv_init (ks : List Nat) : ZInv ks (initP 0 (ks.map MainOp.run)) := by
  refine ⟨⟨ks, List.suffix_refl ks, rfl⟩, rfl, rfl, rfl, rfl, rfl, rfl, ?_, rfl, rfl⟩
  intro x hx
  simp [initP] at hx

theorem zinv_step {ks : List Nat} {a : Action} {s s' : PoolState}
    (hZ : ZInv ks s) (h : step a s = some s') : ZInv ks s' := by
  obtain ⟨⟨t, hts, hmt⟩, hc0, hwn, hdn, hecl, hscl, hecp, hacq, hpn, hr0⟩ := hZ
  cases step_cases h with
  | runPop k rest hp hdr hm =>
      rw [hm] at hmt
      obtain ⟨t', ht1, ht2⟩ := map_run_eq_cons hmt.symm
      refine ⟨⟨t', (List.suffix_cons k t').trans (ht1 ▸ hts), ht2⟩, hc0, hwn, hdn,
        hecl, hscl, hecp, ?_, hpn, hr0⟩
      intro x hx
      dsimp only at hx
      rcases List.mem_append.mp hx with h1 | h1
      · exact hacq x h1
      · exact ⟨k, List.mem_singleton.mp h1⟩
  | waitPop rest hp hdr hm =>
      rw [hm] at hmt
      exact absurd hmt.symm map_run_ne_wait
  | drainPop rest hp hdr hm =>
      rw [hm] at hmt
      exact absurd hmt.symm map_run_ne_drain
  | acqPanic i k hp hw hcl => rw [hscl] at hcl; cases hcl
  | acqBuf i k hp hw hcl hlt => exfalso; omega
  | acqRdv i j k hp hcap0 hcl hwi hwj =>
      obtain ⟨k2, hk2⟩ := hacq _ (mem_of_get hwj)
      cases hk2
  | pushPanic i k hp hw hcl =>
      obtain ⟨k2, hk2⟩ := hacq _ (mem_of_get hw)
      cases hk2
  | pushBuf i k hp hw hcl hlt =>
      obtain ⟨k2, hk2⟩ := hacq _ (mem_of_get hw)
      cases hk2
  | pushRdv i k hp hw hcl hlt hdr =>
      obtain ⟨k2, hk2⟩ := hacq _ (mem_of_get hw)
      cases hk2
  | bodyDone i hp hw =>
      obtain ⟨k2, hk2⟩ := hacq _ (mem_of_get hw)
      cases hk2
  | relBuf i hp hw hlt =>
      obtain ⟨k2, hk2⟩ := hacq _ (mem_of_get hw)
      cases hk2
  | relClosed i hp hw hlt hcl =>
      obtain ⟨k2, hk2⟩ := hacq _ (mem_of_get hw)
      cases hk2
  | exitPanic i hp hw hz =>
      obtain ⟨k2, hk2⟩ := hacq _ (mem_of_get hw)
      cases hk2
  | exitOk i hp hw hz =>
      obtain ⟨k2, hk2⟩ := hacq _ (mem_of_get hw)
      cases hk2
  | wake w hp hw hz => rw [hwn] at hw; cases hw
  | clErrPanic w hp hw hcl => rw [hwn] at hw; cases hw
  | clErr w hp hw hcl => rw [hwn] at hw; cases hw
  | clSemPanic w hp hw hcl => rw [hwn] at hw; cases hw
  | clSem w hp hw hcl => rw [hwn] at hw; cases hw
  | drRecv hp hdr hlt => rw [hdn] at hdr; cases hdr
  | drClose hp hdr hl0 hcl => rw [hdn] at hdr; cases hdr

theorem zinv_reach {ks : List Nat} {s' : PoolState}
    (h : Reach (initP 0 (ks.map MainOp.run)) s') : ZInv ks s' := by
  induction h with
  | refl => exact zinv_init ks
  | tail _ hstep ih =>
      obtain ⟨a, ha⟩ := hstep
      exact zinv_step ih ha

/-- Executing the first `ks.length` main-goroutine steps of a script that
begins with `ks.length` calls to `Run` spawns exactly those workers (all
still before their permit-acquire) and increments the WaitGroup counter
once per call, and nothing else. -/
theorem run_spawn (ks : List Nat) (t : List MainOp) :
    ∀ s : PoolState, s.panicked = false → s.drainSt ≠ some DrainStage.drain →
      s.mainOps = ks.map MainOp.run ++ t →
      runActs (List.replicate ks.length Action.mainStep) s =
        some { s with workers := s.workers ++ ks.map WStage.acquire,
                      wg := s.wg + ks.length, mainOps := t } := by
  induction ks with
  | nil =>
      intro s hp hdr hm
      have ht : t = s.mainOps := by simpa using hm.symm
      subst ht
      simp only [List.length_nil, List.replicate, runActs, List.map_nil,
        List.append_nil, Nat.add_zero]
  | cons k ks ih =>
      intro s hp hdr hm
      rw [List.length_cons, List.replicate_succ]
      simp only [runActs]
      have h1 : step Action.mainStep s =
          some { s with workers := s.workers ++ [WStage.acquire k],
                        wg := s.wg + 1, mainOps := ks.map MainOp.run ++ t } := by
        rw [step, if_neg (by simp [hp])]
        simp only [stepGo]
        rw [if_neg hdr, hm]
        simp only [List.map_cons, List.cons_append]
      rw [h1]
      dsimp only
      have h2 := ih { s with workers := s.workers ++ [WStage.acquire k],
                             wg := s.wg + 1, mainOps := ks.map MainOp.run ++ t }
        hp hdr rfl
      dsimp only at h2
      rw [h2]
      have e1 : (s.workers ++ [WStage.acquire k]) ++ ks.map WStage.acquire =
          s.workers ++ (WStage.acquire k :: ks.map WStage.acquire) := by simp
      have e2 : s.wg + 1 + ks.length = s.wg + (ks.length + 1) := by omega
      simp only [List.map_cons, List.length_cons]
      rw [e1, e2]

/-- Shared drain-count lemma for the documented usage script: when the
drain loop has terminated, the consumer has received exactly the total
number of results the submitted units push, and it terminated because it
observed `Errors` closed. -/
theorem drain_done_received {cap : Nat} {ks : List Nat} {s : PoolState}
    (hr : Reach (initP cap (mkScript ks)) s)
    (hd : s.drainSt = some DrainStage.done) :
    s.received = ks.sum ∧ s.errClosed = true := by
  have hI := inv_reach hr
  have hS := sinv_reach hr
  have hcl : s.errClosed = true := hI.drain_closed hd
  refine ⟨?_, hcl⟩
  have hpos : 0 < s.nCloseErr := hI.errc.mp hcl
  rw [hI.nerr_eq] at hpos
  obtain ⟨w, hwmem, hwpos⟩ := exists_pos_of_sumBy_pos hpos
  have hwne : w ≠ WaiterStage.waitZero := by
    intro hc; subst hc; simp [pastErrW] at hwpos
  have hfin := hS.fin9 ⟨w, hwmem, hwne⟩
  have hpw : sumBy pushW s.workers = 0 := by
    apply sumBy_zero_of_all
    intro x hxmem
    have hxz := sumBy_eq_zero hfin x hxmem
    cases x with
    | finished => rfl
    | acquire k => simp [unfinW] at hxz
    | body k => simp [unfinW] at hxz
    | release => simp [unfinW] at hxz
    | wdone => simp [unfinW] at hxz
  have hmo : s.mainOps = [] := hS.drain_main (by rw [hd]; simp)
  have hcons := hI.conserve
  rw [hmo, hpw, hI.errLen0, opPush_mkScript] at hcons
  simp only [sumBy] at hcons
  omega

def stepPair (side : Bool) (a : Action) (w : PoolState × PoolState) :
    Option (PoolState × PoolState) :=
  match side with
  | true => (step a w.1).map fun s1 => (s1, w.2)
  | false => (step a w.2).map fun s2 => (w.1, s2)

theorem sum_lt_length {ks : List Nat} (h0 : 0 ∈ ks) (h1 : ∀ k ∈ ks, k ≤ 1) :
    ks.sum < ks.length := by
  induction ks with
  | nil => simp at h0
  | cons z zs ih =>
      rcases List.mem_cons.mp h0 with hz | hz
      · have hle : zs.sum ≤ zs.length := by
          clear ih h0
          induction zs with
          | nil => simp
          | cons y ys ih2 =>
              have hy := h1 y (by simp)
              have := ih2 fun k hk => h1 k (by
                rcases List.mem_cons.mp hk with h | h
                · simp [h]
                · exact List.mem_cons_of_mem z (List.mem_cons_of_mem y h))
              simp only [List.sum_cons, List.length_cons]
              omega
        simp only [List.sum_cons, List.length_cons, ← hz]
        omega
      · have := ih hz fun k hk => h1 k (List.mem_cons_of_mem z hk)
        have hzle := h1 z (List.mem_cons_self z zs)
        simp only [List.sum_cons, List.length_cons]
        omega

/-- The allowed program-counter transitions of one worker goroutine:
permit-acquire, then each push of its body, then body exit, then
permit-release, then the tracker decrement. -/
inductive stageNext : WStage → WStage → Prop
  | acq_body (k : Nat) : stageNext (WStage.acquire k) (WStage.body k)
  | body_body (k : Nat) : stageNext (WStage.body (k + 1)) (WStage.body k)
  | body_rel : stageNext (WStage.body 0) WStage.release
  | rel_done : stageNext WStage.release WStage.wdone
  | done_fin : stageNext WStage.wdone WStage.finished

theorem set_step_pair {l : List WStage} {i i0 : Nat} {st st' x : WStage} {y : WStage}
    (hw : l[i0]? = some x) (h1 : l[i]? = some st)
    (h2 : (l.set i0 y)[i]? = some st') (hne : st ≠ st') :
    st = x ∧ st' = y := by
  by_cases hii : i0 = i
  · subst hii
    rw [h1] at hw
    have hlt : i0 < l.length := (List.getElem?_eq_some.mp h1).1
    rw [List.getElem?_set_self hlt] at h2
    exact ⟨Option.some.inj hw, (Option.some.inj h2).symm⟩
  · rw [List.getElem?_set_ne hii, h1] at h2
    exact absurd (Option.some.inj h2) hne

/-- C1: for every pool constructed with capacity `cap ≥ 1`, in every state
reachable under any client script and any interleaving, at most `cap`
submitted units are inside the interval between their permit-acquire
(`p.semaphore <- true`) and their permit-release (`<-p.semaphore`), which
contains the whole execution of the unit body. -/
theorem c1_concurrency_bound {cap : Nat} {S : List MainOp} {s : PoolState}
    (hcap : 1 ≤ cap) (hr : Reach (initP cap S) s) :
    sumBy holdW s.workers ≤ cap := by
  have hI := inv_reach hr
  have h1 := hI.hold_eq
  have h2 := hI.sem_le
  have h3 := hI.cap_eq
  omega

/-- A concrete reachable state used by several witnesses: a capacity-1
pool whose client ran `Run` (a unit pushing one result) and `Wait` and is
draining, with the single worker holding the permit inside its body. -/
def midState : PoolState :=
  { semCap := 1, semLen := 1, semClosed := false, errCap := 0, errLen := 0,
    errClosed := false, wg := 1, workers := [WStage.body 1],
    waiters := [WaiterStage.waitZero], mainOps := [],
    drainSt := some DrainStage.drain, received := 0, nCloseErr := 0,
    nCloseSem := 0, panicked := false }

theorem midState_run :
    runActs [Action.mainStep, Action.mainStep, Action.mainStep,
      Action.workerAcquire 0] (initP 1 (mkScript [1])) = some midState := by
  decide

theorem c1_concurrency_bound_witness : sumBy holdW midState.workers ≤ 1 :=
  c1_concurrency_bound (by decide) (reach_of_run midState_run)

/-- C3: under the documented usage (M submissions each pushing exactly one
result, then `Wait`, then the drain loop), whenever the drain loop has
terminated it has received exactly M values, and it terminated because the
result stream was closed: no value is lost and none is duplicated, for
every capacity and every interleaving. -/
theorem c3_exact_delivery {cap M : Nat} {s : PoolState}
    (hr : Reach (initP cap (mkScript (List.replicate M 1))) s)
    (hd : s.drainSt = some DrainStage.done) :
    s.received = M ∧ s.errClosed = true := by
  have h := drain_done_received hr hd
  simpa using h

/-- Terminal state of a complete capacity-1 run with one submitted unit
pushing one result: the drain loop has finished with that one result. -/
def c3FinState : PoolState :=
  { semCap := 1, semLen := 0, semClosed := true, errCap := 0, errLen := 0,
    errClosed := true, wg := 0, workers := [WStage.finished],
    waiters := [WaiterStage.wfin], mainOps := [],
    drainSt := some DrainStage.done, received := 1, nCloseErr := 1,
    nCloseSem := 1, panicked := false }

theorem c3FinState_run :
    runActs [Action.mainStep, Action.mainStep, Action.mainStep,
      Action.workerAcquire 0, Action.workerPush 0, Action.workerBodyDone 0,
      Action.workerRelease 0, Action.workerExit 0, Action.waiterWake 0,
      Action.waiterCloseErr 0, Action.waiterCloseSem 0, Action.drainClose]
      (initP 1 (mkScript (List.replicate 1 1))) = some c3FinState := by
  decide

theorem c3_exact_delivery_witness :
    c3FinState.received = 1 ∧ c3FinState.errClosed = true :=
  c3_exact_delivery (reach_of_run c3FinState_run) rfl

/-- C7 counterexample: for the non-positive capacity -1 construction does
not succeed: `make(chan bool, -1)` panics at run time (the Go
specification: a channel buffer size must be non-negative), modelled by
`New` returning `none`, so no Pool is produced and nothing can be
submitted to it. -/
theorem c7_cex_negative_capacity : New (-1) [] = none := rfl

/-- C7 (amended): a zero capacity yields a pool with admission permanently
blocked — construction succeeds without validation and every submitted
unit stays at its permit-acquire forever, no unit body ever executing —
while a negative capacity makes construction itself panic
(`make(chan bool, concurrency)` with a negative size). -/
theorem c7_zero_capacity_amended {ks : List Nat} {s : PoolState}
    (c : Int) (S : List MainOp) (hneg : c < 0)
    (hr : Reach (initP 0 (ks.map MainOp.run)) s) :
    New c S = none ∧
    New 0 S = some (initP 0 S) ∧
    (∀ x ∈ s.workers, ∃ k, x = WStage.acquire k) ∧
    sumBy bodyW s.workers = 0 := by
  have hZ := zinv_reach hr
  refine ⟨by rw [New, if_pos hneg], rfl, hZ.allacq, ?_⟩
  apply sumBy_zero_of_all
  intro x hx
  obtain ⟨k, hk⟩ := hZ.allacq x hx
  rw [hk]
  rfl

/-- State of a zero-capacity pool after one `Run`: the worker is parked at
its permit-acquire. -/
def zeroCapState : PoolState :=
  { semCap := 0, semLen := 0, semClosed := false, errCap := 0, errLen := 0,
    errClosed := false, wg := 1, workers := [WStage.acquire 1],
    waiters := [], mainOps := [], drainSt := none, received := 0,
    nCloseErr := 0, nCloseSem := 0, panicked := false }

theorem zeroCapState_run :
    runActs [Action.mainStep] (initP 0 ([1].map MainOp.run)) = some zeroCapState := by
  decide

theorem c7_zero_capacity_amended_witness :
    New (-1) [] = none ∧
    New 0 [] = some (initP 0 []) ∧
    (∀ x ∈ zeroCapState.workers, ∃ k, x = WStage.acquire k) ∧
    sumBy bodyW zeroCapState.workers = 0 :=
  c7_zero_capacity_amended (-1) [] (by decide) (reach_of_run zeroCapState_run)

/-- C8 counterexample: one unit that returns without pushing any result,
with the documented `Run`-`Wait`-drain usage.  Contrary to the claim, the
completion tracker still reaches zero (the decrement sits in the deferred
cleanup, which runs whether or not the body pushed), the background waiter
closes the stream, and the drain loop terminates normally with zero
received values — no indefinite blocking. -/
theorem c8_cex_no_push_unit :
    ∃ u, runActs [Action.mainStep, Action.mainStep, Action.mainStep,
        Action.workerAcquire 0, Action.workerBodyDone 0, Action.workerRelease 0,
        Action.workerExit 0, Action.waiterWake 0, Action.waiterCloseErr 0,
        Action.waiterCloseSem 0, Action.drainClose]
        (initP 1 (mkScript [0])) = some u ∧
      u.drainSt = some DrainStage.done ∧ u.received = 0 ∧
      u.errClosed = true ∧ u.panicked = false := by
  exact ⟨_, rfl, rfl, rfl, rfl, rfl⟩

/-- C8 (amended): if some submitted unit returns without pushing a result
(and the rest push at most one each), the waiter still observes the
tracker reach zero and closes the stream, and the drain loop, whenever it
terminates, has received exactly the values actually pushed — strictly
fewer than the number of submitted units. -/
theorem c8_no_push_amended {cap : Nat} {ks : List Nat} {s : PoolState}
    (h0 : 0 ∈ ks) (h1 : ∀ k ∈ ks, k ≤ 1)
    (hr : Reach (initP cap (mkScript ks)) s)
    (hd : s.drainSt = some DrainStage.done) :
    s.received = ks.sum ∧ s.received < ks.length ∧ s.errClosed = true := by
  obtain ⟨ha, hb⟩ := drain_done_received hr hd
  exact ⟨ha, by rw [ha]; exact sum_lt_length h0 h1, hb⟩

/-- Terminal state of the C8 scenario: pool closed, drain finished, zero
results received from the single non-pushing unit. -/
def c8FinState : PoolState :=
  { semCap := 1, semLen := 0, semClosed := true, errCap := 0, errLen := 0,
    errClosed := true, wg := 0, workers := [WStage.finished],
    waiters := [WaiterStage.wfin], mainOps := [],
    drainSt := some DrainStage.done, received := 0, nCloseErr := 1,
    nCloseSem := 1, panicked := false }

theorem c8FinState_run :
    runActs [Action.mainStep, Action.mainStep, Action.mainStep,
      Action.workerAcquire 0, Action.workerBodyDone 0, Action.workerRelease 0,
      Action.workerExit 0, Action.waiterWake 0, Action.waiterCloseErr 0,
      Action.waiterCloseSem 0, Action.drainClose]
      (initP 1 (mkScript [0])) = some c8FinState := by
  decide

theorem c8_no_push_amended_witness :
    c8FinState.received = ([0] : List Nat).sum ∧
    c8FinState.received < ([0] : List Nat).length ∧
    c8FinState.errClosed = true :=
  c8_no_push_amended (by decide) (by decide) (reach_of_run c8FinState_run) rfl

/-- C5: `Run` never blocks the caller — whenever the client's next call is
`Run`, the call proceeds unconditionally, merely spawning a new goroutine
parked at its permit-acquire — and with capacity 1 any number `m` of
submissions can accumulate `m` spawned activities all waiting for a permit
with no body executing: only body execution is capped, not activity
creation. -/
theorem c5_run_nonblocking {s : PoolState} {k : Nat} {rest : List MainOp} (m : Nat)
    (hp : s.panicked = false) (hdr : s.drainSt ≠ some DrainStage.drain)
    (hm : s.mainOps = MainOp.run k :: rest) :
    step Action.mainStep s =
      some { s with workers := s.workers ++ [WStage.acquire k],
                    wg := s.wg + 1, mainOps := rest } ∧
    (∃ u, Reach (initP 1 (mkScript (List.replicate m 1))) u ∧
        sumBy acqW u.workers = m ∧ sumBy bodyW u.workers = 0) := by
  constructor
  · rw [step, if_neg (by simp [hp])]
    simp only [stepGo]
    rw [if_neg hdr, hm]
  · have hrun := run_spawn (List.replicate m 1) [MainOp.wait, MainOp.drain]
      (initP 1 (mkScript (List.replicate m 1))) rfl (by simp [initP]) rfl
    refine ⟨_, reach_of_run hrun, ?_, ?_⟩
    · dsimp only
      rw [List.map_replicate]
      simp only [initP, List.nil_append, List.length_replicate]
      rw [sumBy_replicate]
      simp [acqW]
    · dsimp only
      rw [List.map_replicate]
      simp only [initP, List.nil_append, List.length_replicate]
      rw [sumBy_replicate]
      simp [bodyW]

theorem c5_run_nonblocking_witness :
    (step Action.mainStep (initP 1 (mkScript [1])) =
      some { initP 1 (mkScript [1]) with
              workers := (initP 1 (mkScript [1])).workers ++ [WStage.acquire 1],
              wg := (initP 1 (mkScript [1])).wg + 1,
              mainOps := [MainOp.wait, MainOp.drain] }) ∧
    (∃ u, Reach (initP 1 (mkScript (List.replicate 3 1))) u ∧
        sumBy acqW u.workers = 3 ∧ sumBy bodyW u.workers = 0) :=
  c5_run_nonblocking 3 rfl (by simp [initP]) rfl

/-- C6 counterexample: invoking `Wait` more than once is one of the
misuses enumerated by the claim, but it does not manifest as permanent
blocking: the second background waiter reaches `close(p.Errors)` when the
channel is already closed, which is a Go runtime panic — a surfaced fatal
error that crashes the program (`panicked = true`), not a deadlock. -/
theorem c6_cex_double_wait :
    ∃ u, runActs [Action.mainStep, Action.mainStep, Action.waiterWake 0,
        Action.waiterWake 1, Action.waiterCloseErr 0, Action.waiterCloseErr 1]
        (initP 1 [MainOp.wait, MainOp.wait, MainOp.drain]) = some u ∧
      u.panicked = true := by
  exact ⟨_, rfl, rfl⟩

/-- C6 (amended): the pool indeed detects and reports nothing itself, but
the enumerated misuses do not all manifest as permanent blocking.  Only a
zero capacity blocks silently and forever (no panic, nothing delivered,
every worker parked at its permit-acquire); calling `Run` after the close
has taken effect is a Go runtime panic (send on a closed channel), as is
calling `Wait` twice (close of a closed channel) — surfaced crashes, not
blocking; and a unit that pushes no result is no hang at all: its deferred
cleanup still releases the permit and decrements the tracker, so the
waiter closes the stream and the drain loop terminates normally with zero
values delivered. -/
theorem c6_misuse_amended {ks : List Nat} {s : PoolState}
    (hr : Reach (initP 0 (ks.map MainOp.run)) s) :
    (s.panicked = false ∧ s.received = 0 ∧
      ∀ x ∈ s.workers, ∃ k, x = WStage.acquire k) ∧
    (∃ u, runActs [Action.mainStep, Action.waiterWake 0, Action.waiterCloseErr 0,
          Action.waiterCloseSem 0, Action.mainStep, Action.workerAcquire 0]
          (initP 1 [MainOp.wait, MainOp.run 1, MainOp.drain]) = some u ∧
        u.panicked = true) ∧
    (∃ v, runActs [Action.mainStep, Action.mainStep, Action.mainStep,
          Action.workerAcquire 0, Action.workerBodyDone 0, Action.workerRelease 0,
          Action.workerExit 0, Action.waiterWake 0, Action.waiterCloseErr 0,
          Action.waiterCloseSem 0, Action.drainClose]
          (initP 1 (mkScript [0])) = some v ∧
        v.panicked = false ∧ v.drainSt = some DrainStage.done ∧
        v.errClosed = true ∧ v.received = 0) := by
  have hZ := zinv_reach hr
  exact ⟨⟨hZ.nopanic, hZ.rec0, hZ.allacq⟩, ⟨_, rfl, rfl⟩,
    ⟨_, rfl, rfl, rfl, rfl, rfl⟩⟩

theorem c6_misuse_amended_witness :
    (zeroCapState.panicked = false ∧ zeroCapState.received = 0 ∧
      ∀ x ∈ zeroCapState.workers, ∃ k, x = WStage.acquire k) ∧
    (∃ u, runActs [Action.mainStep, Action.waiterWake 0, Action.waiterCloseErr 0,
          Action.waiterCloseSem 0, Action.mainStep, Action.workerAcquire 0]
          (initP 1 [MainOp.wait, MainOp.run 1, MainOp.drain]) = some u ∧
        u.panicked = true) ∧
    (∃ v, runActs [Action.mainStep, Action.mainStep, Action.mainStep,
          Action.workerAcquire 0, Action.workerBodyDone 0, Action.workerRelease 0,
          Action.workerExit 0, Action.waiterWake 0, Action.waiterCloseErr 0,
          Action.waiterCloseSem 0, Action.drainClose]
          (initP 1 (mkScript [0])) = some v ∧
        v.panicked = false ∧ v.drainSt = some DrainStage.done ∧
        v.errClosed = true ∧ v.received = 0) :=
  c6_misuse_amended (reach_of_run zeroCapState_run)

/-- C9: two pools constructed by separate calls to `New` share no mutable
state: `stepPair` runs two pools side by side, and any operation of either
program (a `Run`, `Wait`, drain step, or any goroutine step of that pool)
leaves the other pool's entire state — permit availability, completion
tracker, and result stream included — unchanged. -/
theorem c9_pool_independence {side : Bool} {a : Action}
    {w w' : PoolState × PoolState}
    (h : stepPair side a w = some w') :
    (side = true → w'.2 = w.2) ∧ (side = false → w'.1 = w.1) := by
  cases side with
  | true =>
      refine ⟨fun _ => ?_, fun hc => Bool.noConfusion hc⟩
      simp only [stepPair] at h
      cases hs : step a w.1 with
      | none => rw [hs] at h; cases h
      | some s1 =>
          rw [hs] at h
          have h2 : (s1, w.2) = w' := Option.some.inj h
          rw [← h2]
  | false =>
      refine ⟨fun hc => Bool.noConfusion hc, fun _ => ?_⟩
      simp only [stepPair] at h
      cases hs : step a w.2 with
      | none => rw [hs] at h; cases h
      | some s2 =>
          rw [hs] at h
          have h2 : (w.1, s2) = w' := Option.some.inj h
          rw [← h2]

/-- Two freshly constructed pools side by side, and the same pair after
the left pool's client executed its `Run` call. -/
def c9Pair : PoolState × PoolState := (initP 1 [MainOp.run 1], initP 2 [])

def c9PairStepped : PoolState × PoolState :=
  ({ semCap := 1, semLen := 0, semClosed := false, errCap := 0, errLen := 0,
     errClosed := false, wg := 1, workers := [WStage.acquire 1], waiters := [],
     mainOps := [], drainSt := none, received := 0, nCloseErr := 0,
     nCloseSem := 0, panicked := false }, initP 2 [])

theorem c9_pool_independence_witness :
    ((true : Bool) = true → c9PairStepped.2 = c9Pair.2) ∧
    ((true : Bool) = false → c9PairStepped.1 = c9Pair.1) :=
  @c9_pool_independence true Action.mainStep c9Pair c9PairStepped (by decide)

/-- C10: `New` creates the `Errors` stream with `make(chan error)`, a
zero-capacity buffer, in every pool and forever; consequently a push of a
result value can only complete (without panicking) by rendezvous with the
drain loop actively receiving at that instant — a result can never sit
buffered in the pool without a consumer. -/
theorem c10_unbuffered_errors {cap : Nat} {c : Int} {S : List MainOp}
    {p s : PoolState} {i : Nat}
    (hM : New c S = some p) (hr : Reach (initP cap S) s) :
    p.errCap = 0 ∧ s.errCap = 0 ∧
    (∀ u, step (Action.workerPush i) s = some u → u.panicked = false →
      s.drainSt = some DrainStage.drain ∧ u.received = s.received + 1) := by
  have hI := inv_reach hr
  refine ⟨?_, hI.errCap0, ?_⟩
  · rw [New] at hM
    split at hM
    · cases hM
    · exact (Option.some.inj hM) ▸ rfl
  · intro u hu hup
    have hp : s.panicked = false := by
      by_contra hc
      rw [step, if_pos (by revert hc; cases s.panicked <;> simp)] at hu
      cases hu
    rw [step, if_neg (by simp [hp])] at hu
    simp only [stepGo] at hu
    split at hu
    · rename_i st k hw
      split at hu
      · exfalso
        rw [← Option.some.inj hu] at hup
        cases hup
      split at hu
      · exfalso
        have h1 := hI.errCap0
        have h2 := hI.errLen0
        omega
      split at hu
      · rename_i hdr2
        rw [← Option.some.inj hu]
        exact ⟨hdr2, rfl⟩
      · cases hu
    · cases hu

theorem c10_unbuffered_errors_witness :
    (initP 1 (mkScript [1])).errCap = 0 ∧ midState.errCap = 0 ∧
    (∀ u, step (Action.workerPush 0) midState = some u → u.panicked = false →
      midState.drainSt = some DrainStage.drain ∧
      u.received = midState.received + 1) :=
  c10_unbuffered_errors (c := 1) rfl (reach_of_run midState_run)

/-- C4: per-unit ordering.  (a) Any step that changes a worker's program
counter follows the order permit-acquire, body pushes, body exit,
permit-release, tracker-decrement (`stageNext`); (b) `Run` increments the
tracker in the same synchronous step that spawns the worker, which starts
at its permit-acquire, before the body runs; (c) in every reachable state
the tracker equals the number of workers that have not yet decremented;
(d) the decrement happens exactly once per worker, at its
`wdone → finished` exit transition, which lies after the permit-release. -/
theorem c4_unit_ordering {cap : Nat} {S : List MainOp} {a : Action}
    {s s' t : PoolState}
    (hstep : step a s = some s') (hr : Reach (initP cap S) t) :
    (∀ (i : Nat) (st st' : WStage), s.workers[i]? = some st →
        s'.workers[i]? = some st' → st ≠ st' → stageNext st st') ∧
    (∀ k rest, s.panicked = false → s.drainSt ≠ some DrainStage.drain →
        s.mainOps = MainOp.run k :: rest →
        step Action.mainStep s =
          some { s with workers := s.workers ++ [WStage.acquire k],
                        wg := s.wg + 1, mainOps := rest }) ∧
    sumBy unfinW t.workers = t.wg ∧
    (∀ j u, step (Action.workerExit j) s = some u → u.panicked = false →
        s.workers[j]? = some WStage.wdone ∧
        u.workers[j]? = some WStage.finished ∧ u.wg + 1 = s.wg) := by
  refine ⟨?_, ?_, (inv_reach hr).wg_eq, ?_⟩
  · intro i st st' h1 h2 hne
    cases step_cases hstep with
    | runPop k rest hp hdr hm =>
        have hi := (List.getElem?_eq_some.mp h1).1
        dsimp only at h2
        rw [List.getElem?_append_left hi, h1] at h2
        exact absurd (Option.some.inj h2) hne
    | waitPop rest hp hdr hm =>
        dsimp only at h2; rw [h1] at h2; exact absurd (Option.some.inj h2) hne
    | drainPop rest hp hdr hm =>
        dsimp only at h2; rw [h1] at h2; exact absurd (Option.some.inj h2) hne
    | acqPanic i0 k hp hw hcl =>
        dsimp only at h2; rw [h1] at h2; exact absurd (Option.some.inj h2) hne
    | acqBuf i0 k hp hw hcl hlt =>
        dsimp only at h2
        obtain ⟨ha, hb⟩ := set_step_pair hw h1 h2 hne
        subst ha; subst hb
        exact stageNext.acq_body k
    | acqRdv i0 j0 k hp hcap0 hcl hwi hwj =>
        dsimp only at h2
        have hij : i0 ≠ j0 := by
          intro hc
          rw [hc, hwj] at hwi
          exact absurd (Option.some.inj hwi) (by simp)
        by_cases hij2 : j0 = i
        · subst hij2
          have hlt : j0 < s.workers.length := (List.getElem?_eq_some.mp hwj).1
          rw [List.getElem?_set_self (by simpa using hlt)] at h2
          rw [hwj] at h1
          have hst : st = WStage.release := (Option.some.inj h1).symm
          have hst2 : st' = WStage.wdone := (Option.some.inj h2).symm
          subst hst; subst hst2
          exact stageNext.rel_done
        · rw [List.getElem?_set_ne fun hc => hij2 hc] at h2
          obtain ⟨ha, hb⟩ := set_step_pair hwi h1 h2 hne
          subst ha; subst hb
          exact stageNext.acq_body k
    | pushPanic i0 k hp hw hcl =>
        dsimp only at h2; rw [h1] at h2; exact absurd (Option.some.inj h2) hne
    | pushBuf i0 k hp hw hcl hlt =>
        dsimp only at h2
        obtain ⟨ha, hb⟩ := set_step_pair hw h1 h2 hne
        subst ha; subst hb
        exact stageNext.body_body k
    | pushRdv i0 k hp hw hcl hlt hdr =>
        dsimp only at h2
        obtain ⟨ha, hb⟩ := set_step_pair hw h1 h2 hne
        subst ha; subst hb
        exact stageNext.body_body k
    | bodyDone i0 hp hw =>
        dsimp only at h2
        obtain ⟨ha, hb⟩ := set_step_pair hw h1 h2 hne
        subst ha; subst hb
        exact stageNext.body_rel
    | relBuf i0 hp hw hlt =>
        dsimp only at h2
        obtain ⟨ha, hb⟩ := set_step_pair hw h1 h2 hne
        subst ha; subst hb
        exact stageNext.rel_done
    | relClosed i0 hp hw hlt hcl =>
        dsimp only at h2
        obtain ⟨ha, hb⟩ := set_step_pair hw h1 h2 hne
        subst ha; subst hb
        exact stageNext.rel_done
    | exitPanic i0 hp hw hz =>
        dsimp only at h2; rw [h1] at h2; exact absurd (Option.some.inj h2) hne
    | exitOk i0 hp hw hz =>
        dsimp only at h2
        obtain ⟨ha, hb⟩ := set_step_pair hw h1 h2 hne
        subst ha; subst hb
        exact stageNext.done_fin
    | wake w hp hw hz =>
        dsimp only at h2; rw [h1] at h2; exact absurd (Option.some.inj h2) hne
    | clErrPanic w hp hw hcl =>
        dsimp only at h2; rw [h1] at h2; exact absurd (Option.some.inj h2) hne
    | clErr w hp hw hcl =>
        dsimp only at h2; rw [h1] at h2; exact absurd (Option.some.inj h2) hne
    | clSemPanic w hp hw hcl =>
        dsimp only at h2; rw [h1] at h2; exact absurd (Option.some.inj h2) hne
    | clSem w hp hw hcl =>
        dsimp only at h2; rw [h1] at h2; exact absurd (Option.some.inj h2) hne
    | drRecv hp hdr hlt =>
        dsimp only at h2; rw [h1] at h2; exact absurd (Option.some.inj h2) hne
    | drClose hp hdr hl0 hcl =>
        dsimp only at h2; rw [h1] at h2; exact absurd (Option.some.inj h2) hne
  · intro k rest hp2 hdr2 hm2
    rw [step, if_neg (by simp [hp2])]
    simp only [stepGo]
    rw [if_neg hdr2, hm2]
  · intro j u hu hup
    have hp : s.panicked = false := by
      by_contra hc
      rw [step, if_pos (by revert hc; cases s.panicked <;> simp)] at hu
      cases hu
    rw [step, if_neg (by simp [hp])] at hu
    simp only [stepGo] at hu
    split at hu
    · rename_i hw
      split at hu
      · exfalso
        rw [← Option.some.inj hu] at hup
        cases hup
      · rename_i hz
        rw [← Option.some.inj hu]
        have hlt : j < s.workers.length := (List.getElem?_eq_some.mp hw).1
        refine ⟨hw, ?_, ?_⟩
        · dsimp only
          rw [List.getElem?_set_self hlt]
        · dsimp only
          omega
    · cases hu

/-- The state one push step after `midState`: the single worker has
delivered its result to the drain loop. -/
def pushedState : PoolState :=
  { semCap := 1, semLen := 1, semClosed := false, errCap := 0, errLen := 0,
    errClosed := false, wg := 1, workers := [WStage.body 0],
    waiters := [WaiterStage.waitZero], mainOps := [],
    drainSt := some DrainStage.drain, received := 1, nCloseErr := 0,
    nCloseSem := 0, panicked := false }

theorem pushedState_step :
    step (Action.workerPush 0) midState = some pushedState := by
  decide

theorem c4_unit_ordering_witness :
    (∀ (i : Nat) (st st' : WStage), midState.workers[i]? = some st →
        pushedState.workers[i]? = some st' → st ≠ st' → stageNext st st') ∧
    (∀ k rest, midState.panicked = false →
        midState.drainSt ≠ some DrainStage.drain →
        midState.mainOps = MainOp.run k :: rest →
        step Action.mainStep midState =
          some { midState with
                  workers := midState.workers ++ [WStage.acquire k],
                  wg := midState.wg + 1, mainOps := rest }) ∧
    sumBy unfinW midState.workers = midState.wg ∧
    (∀ j u, step (Action.workerExit j) midState = some u → u.panicked = false →
        midState.workers[j]? = some WStage.wdone ∧
        u.workers[j]? = some WStage.finished ∧ u.wg + 1 = midState.wg) :=
  @c4_unit_ordering 1 (mkScript [1]) (Action.workerPush 0) midState pushedState
    midState pushedState_step (reach_of_run midState_run)

/-- C2: the close protocol of `Wait`.  (i) `Wait` never blocks the caller:
whenever the client's next call is `Wait` it proceeds unconditionally,
merely spawning the background waiter; (ii) soundness of the iff: if the
result stream is closed, some earlier reachable instant had the completion
tracker at zero with `Wait` already issued; (iii) each of the two one-shot
releases — `close(Errors)` and `close(semaphore)` — has happened at most
once, in every reachable state of every program; (iv) completeness: in a
program with at most one `Wait`, from any state where the tracker is zero
and the waiter is pending, the waiter can run to completion, after which
each close has happened exactly once and both channels are closed. -/
theorem c2_close_protocol {cap : Nat} {S : List MainOp} {s : PoolState}
    (hr : Reach (initP cap S) s) :
    (∀ rest, s.panicked = false → s.drainSt ≠ some DrainStage.drain →
        s.mainOps = MainOp.wait :: rest →
        step Action.mainStep s =
          some { s with waiters := s.waiters ++ [WaiterStage.waitZero],
                        mainOps := rest }) ∧
    (s.errClosed = true →
        ∃ mid, Reach (initP cap S) mid ∧ mid.wg = 0 ∧ mid.waiters ≠ []) ∧
    (s.nCloseErr ≤ 1 ∧ s.nCloseSem ≤ 1) ∧
    (∀ w : Nat, sumBy opWait S ≤ 1 → s.panicked = false → s.wg = 0 →
        s.waiters[w]? = some WaiterStage.waitZero →
        ∃ u, Reach s u ∧ u.nCloseErr = 1 ∧ u.nCloseSem = 1 ∧
          u.errClosed = true ∧ u.semClosed = true) := by
  have hI := inv_reach hr
  refine ⟨?_, ?_, ⟨hI.nerr_le, hI.nsem_le⟩, ?_⟩
  · intro rest hp hdr hm
    rw [step, if_neg (by simp [hp])]
    simp only [stepGo]
    rw [if_neg hdr, hm]
  · intro hcl
    have hpos : 0 < s.nCloseErr := hI.errc.mp hcl
    rw [hI.nerr_eq] at hpos
    obtain ⟨w, hwmem, hwpos⟩ := exists_pos_of_sumBy_pos hpos
    have hwne : w ≠ WaiterStage.waitZero := by
      intro hc; subst hc; simp [pastErrW] at hwpos
    exact zero_was_observed hr ⟨w, hwmem, hwne⟩
  · intro w hS1 hp hz hw
    have hwlt : w < s.waiters.length := (List.getElem?_eq_some.mp hw).1
    have hlen : s.waiters.length ≤ 1 := by
      have := hI.wait_count
      omega
    have hwaiters : s.waiters = [WaiterStage.waitZero] := by
      cases hl : s.waiters with
      | nil => rw [hl] at hw; simp at hw
      | cons x xs =>
          cases xs with
          | nil =>
              have hw0 : w = 0 := by
                rw [hl] at hwlt
                simp at hwlt
                exact hwlt
              rw [hl, hw0] at hw
              simp only [List.getElem?_cons_zero, Option.some.injEq] at hw
              rw [hw]
          | cons y ys =>
              exfalso
              rw [hl] at hlen
              simp at hlen
    have hw0 : w = 0 := by
      rw [hwaiters] at hwlt
      simp at hwlt
      exact hwlt
    subst hw0
    have hne0 : s.nCloseErr = 0 := by
      rw [hI.nerr_eq, hwaiters]
      rfl
    have hns0 : s.nCloseSem = 0 := by
      rw [hI.nsem_eq, hwaiters]
      rfl
    have hecl : s.errClosed = false := by
      cases hcl : s.errClosed
      · rfl
      · exfalso
        have := hI.errc.mp hcl
        omega
    have hscl : s.semClosed = false := by
      cases hcl : s.semClosed
      · rfl
      · exfalso
        have := hI.semc.mp hcl
        omega
    have h1 : step (Action.waiterWake 0) s =
        some { s with waiters := [WaiterStage.closeErr] } := by
      rw [step, if_neg (by simp [hp])]
      simp only [stepGo, hwaiters]
      simp only [List.getElem?_cons_zero]
      rw [if_pos hz]
      rfl
    have h2 : step (Action.waiterCloseErr 0)
        { s with waiters := [WaiterStage.closeErr] } =
        some { s with errClosed := true, nCloseErr := s.nCloseErr + 1,
                      waiters := [WaiterStage.closeSem] } := by
      rw [step, if_neg (by simp [hp])]
      simp only [stepGo]
      simp only [List.getElem?_cons_zero]
      rw [if_neg (by simp [hecl])]
      rfl
    have h3 : step (Action.waiterCloseSem 0)
        { s with errClosed := true, nCloseErr := s.nCloseErr + 1,
                 waiters := [WaiterStage.closeSem] } =
        some { s with errClosed := true, nCloseErr := s.nCloseErr + 1,
                      semClosed := true, nCloseSem := s.nCloseSem + 1,
                      waiters := [WaiterStage.wfin] } := by
      rw [step, if_neg (by simp [hp])]
      simp only [stepGo]
      simp only [List.getElem?_cons_zero]
      rw [if_neg (by simp [hscl])]
      rfl
    refine ⟨_, Relation.ReflTransGen.tail (Relation.ReflTransGen.tail
      (Relation.ReflTransGen.single ⟨_, h1⟩) ⟨_, h2⟩) ⟨_, h3⟩, ?_, ?_, rfl, rfl⟩
    · dsimp only
      omega
    · dsimp only
      omega

/-- State of a capacity-1 pool whose client has issued its (single) `Wait`
with no units submitted: the waiter is pending and the tracker is zero. -/
def waitIssuedState : PoolState :=
  { semCap := 1, semLen := 0, semClosed := false, errCap := 0, errLen := 0,
    errClosed := false, wg := 0, workers := [], waiters := [WaiterStage.waitZero],
    mainOps := [MainOp.drain], drainSt := none, received := 0, nCloseErr := 0,
    nCloseSem := 0, panicked := false }

theorem waitIssuedState_run :
    runActs [Action.mainStep] (initP 1 [MainOp.wait, MainOp.drain]) =
      some waitIssuedState := by
  decide

theorem c2_close_protocol_witness :
    (∀ rest, waitIssuedState.panicked = false →
        waitIssuedState.drainSt ≠ some DrainStage.drain →
        waitIssuedState.mainOps = MainOp.wait :: rest →
        step Action.mainStep waitIssuedState =
          some { waitIssuedState with
                  waiters := waitIssuedState.waiters ++ [WaiterStage.waitZero],
                  mainOps := rest }) ∧
    (waitIssuedState.errClosed = true →
        ∃ mid, Reach (initP 1 [MainOp.wait, MainOp.drain]) mid ∧
          mid.wg = 0 ∧ mid.waiters ≠ []) ∧
    (waitIssuedState.nCloseErr ≤ 1 ∧ waitIssuedState.nCloseSem ≤ 1) ∧
    (∀ w : Nat, sumBy opWait [MainOp.wait, MainOp.drain] ≤ 1 →
        waitIssuedState.panicked = false → waitIssuedState.wg = 0 →
        waitIssuedState.waiters[w]? = some WaiterStage.waitZero →
        ∃ u, Reach waitIssuedState u ∧ u.nCloseErr = 1 ∧ u.nCloseSem = 1 ∧
          u.errClosed = true ∧ u.semClosed = true) :=
  c2_close_protocol (reach_of_run waitIssuedState_run)

end CC
